import Mathlib

/-!
Verification of the persistent collection manager (`collectionManager.js`).

JS strings are modelled as lists of characters (`Str`); JS string
comparison `<` is lexicographic on UTF-16 code units, modelled by `strLtB`
on `Char.toNat` (all strings involved are ASCII).  IEEE-754 doubles are
modelled by their 64-bit patterns as natural numbers below `2 ^ 64`;
`BigUint64Array`/`Float64Array` reinterpretation is the identity on the
pattern.  JS bigints are `Int`, JS numbers used as counters are `Nat`.
-/

namespace AG

/-- A JS string, as its list of code units. -/
abbrev Str := List Char

/-- JS string comparison `a < b`: lexicographic on code units. -/
def strLtB : Str → Str → Bool
  | [], [] => false
  | [], _ :: _ => true
  | _ :: _, [] => false
  | a :: as, b :: bs =>
    if a.toNat < b.toNat then true
    else if b.toNat < a.toNat then false
    else strLtB as bs

/-- Digit characters as JS `Number.prototype.toString(base)` produces them:
`0`-`9` then lowercase `a`-`f`. -/
def digitChar (d : Nat) : Char :=
  if d < 10 then Char.ofNat (48 + d) else Char.ofNat (87 + d)

/-- Fuel-driven digit expansion, most significant digit first. -/
def toDigitsAux (b : Nat) : Nat → Nat → Str
  | 0, _ => []
  | fuel + 1, n =>
    if n < b then [digitChar n]
    else toDigitsAux b fuel (n / b) ++ [digitChar (n % b)]

/-- Models JS `n.toString(b)` for a non-negative integer `n` (`n + 1` fuel
always suffices since the digit count of `n` is at most `n + 1`). -/
def jsToString (b n : Nat) : Str := toDigitsAux b (n + 1) n

/-- Numeric value of one digit character (inverse of `digitChar`). -/
def digitVal (c : Char) : Nat :=
  if 97 ≤ c.toNat then c.toNat - 87 else c.toNat - 48

/-- Models JS digit-string parsing (`BigInt("0x…")`, `BigInt(s)`,
`Number.parseInt(s, 10)`) on a pure digit string. -/
def fromDigits (b : Nat) (s : Str) : Nat :=
  s.foldl (fun acc c => acc * b + digitVal c) 0

/-- The literal of 18 zeros from the source's `zeroPad`. -/
def zeros18 : Str := "000000000000000000".data

/-- From the source: `zeroPad(n, size)` prepends 18 zeros and keeps the last
`size` characters (so it can pad by at most 18 zeros, and never shortens
its input: `substring` clamps a negative start to 0). -/
def zeroPad (s : Str) (size : Nat) : Str :=
  let str := zeros18 ++ s
  str.drop (str.length - size)

/-- `0xffffffffffffffffn` from the source. -/
def M64 : Nat := 0xffffffffffffffff

/-- `0x8000000000000000n` from the source (the IEEE-754 sign bit). -/
def H64 : Nat := 0x8000000000000000

/-- The bit pattern `a` is an IEEE-754 NaN: exponent all ones, non-zero
mantissa. -/
def isNaNpat (a : Nat) : Bool :=
  decide ((a / 2 ^ 52) % 2 ^ 11 = 0x7ff) && decide (a % 2 ^ 52 ≠ 0)

/-- JS `n < 0` for the double with pattern `a`: sign bit set, not `-0`
(pattern `2 ^ 63`), and not NaN. -/
def jsLtZeroNum (a : Nat) : Bool := decide (H64 < a) && !(isNaNpat a)

/-- From the source: `numberToDBEntryKey`.  XOR all 64 bits of a negative
double, only the sign bit otherwise; 16 lowercase hex digits after `f`. -/
def numberToDBEntryKey (a : Nat) : Str :=
  let bits := if jsLtZeroNum a then a ^^^ M64 else a ^^^ H64
  'f' :: zeroPad (jsToString 16 bits) 16

/-- From the source: `dbEntryKeyToNumber`.  The branch tests `k[0] < '8'`,
where `k[0]` is the tag character `f` (code 102 ≥ 56, the code of `8`), so
the first branch is dead code.  (Comparison against the head of an empty
string is false in JS, hence the default keeps the else branch.) -/
def dbEntryKeyToNumber (k : Str) : Nat :=
  let bits := fromDigits 16 (k.drop 1)
  if (k.headD 'f').toNat < 56 then bits ^^^ M64 else bits ^^^ H64

/-- `BIGINT_TAG_LEN` from the source. -/
def BIGINT_TAG_LEN : Nat := 10

/-- `BIGINT_LEN_MODULUS` from the source. -/
def BIGINT_LEN_MODULUS : Nat := 10 ^ BIGINT_TAG_LEN

/-- From the source: `bigintToDBEntryKey`. -/
def bigintToDBEntryKey (n : Int) : Str :=
  if n < 0 then
    let raw := jsToString 10 (-n).toNat
    let modulus : Int := (10 : Int) ^ raw.length
    let numstr := jsToString 10 (modulus + n).toNat
    let lenTag := zeroPad (jsToString 10 (BIGINT_LEN_MODULUS - raw.length)) BIGINT_TAG_LEN
    ('n' :: lenTag) ++ (':' :: zeroPad numstr raw.length)
  else
    let numstr := jsToString 10 n.toNat
    ('p' :: zeroPad (jsToString 10 numstr.length) BIGINT_TAG_LEN) ++ (':' :: numstr)

/-- From the source: `dbEntryKeyToBigint`. -/
def dbEntryKeyToBigint (k : Str) : Int :=
  let numstr := k.drop (BIGINT_TAG_LEN + 2)
  let n : Int := fromDigits 10 numstr
  if k.headD 'p' = 'n' then
    let modulus : Int := (10 : Int) ^ numstr.length;
    -(modulus - n)
  else n

/-- Proof-layer: most-significant-first digits of `n` in base `b`, padded
with leading zeros to exactly `w` characters. -/
def toPad (b : Nat) : Nat → Nat → Str
  | 0, _ => []
  | w + 1, n => toPad b w (n / b) ++ [digitChar (n % b)]

/-- The canonical NaN pattern JS engines store. -/
def NANC : Nat := 0x7ff8000000000000

/-- A bit pattern that can occur as `asBits[0]` for a JS number: 64 bits
wide, and a NaN only in canonical form (JS has a single NaN value). -/
def validNum (a : Nat) : Prop := a < 2 ^ 64 ∧ (isNaNpat a = true → a = NANC)

/-- The sign-magnitude integer a 64-bit pattern denotes: negative patterns
(sign bit set) read as minus their magnitude field.  On valid patterns its
order is the IEEE-754 total order of the doubles in rank convention:
`-0` ties with `+0` and NaN sits above `+∞`. -/
def sgnMag (a : Nat) : Int := if H64 ≤ a then -((a : Int) - (H64 : Int)) else (a : Int)

/-! ## Operational model of the collection engine -/

/-- A passable key, in the variants the engine supports.  A remotable is
identified by its slot (`getSlotForVal`/`getValForSlot` translate between
the object and its slot, modelled as the identity on the slot). -/
inductive Key where
  | null
  | undef
  | num (bits : Nat)
  | str (s : Str)
  | bool (b : Bool)
  | bigint (n : Int)
  | remotable (slot : Str)
  | sym (name : Str)
deriving DecidableEq

/-- A serialized value `{body, slots}` as the external `serialize` returns
it; values are carried in serialized form (the marshal layer is external). -/
structure SerVal where
  body : Str
  slots : List Str
deriving DecidableEq

/-- One vat-store row: metadata rows hold plain strings, entry rows hold
the JSON of a serialized value (`JSON.stringify`/`JSON.parse` round-trip,
so the row is modelled as a sum). -/
inductive Row where
  | raw (s : Str)
  | ser (v : SerVal)
deriving DecidableEq

/-- The vat store: an association list of rows (its `get`/`set`/`delete`
are key-based; iteration order is by key, via `getAfter`). -/
abbrev VatStore := List (Str × Row)

def storeGet (st : VatStore) (k : Str) : Option Row :=
  match st with
  | [] => none
  | (k1, v) :: rest => if k1 = k then some v else storeGet rest k

def storeSet (st : VatStore) (k : Str) (v : Row) : VatStore :=
  match st with
  | [] => [(k, v)]
  | (k1, v1) :: rest => if k1 = k then (k1, v) :: rest else (k1, v1) :: storeSet rest k v

def storeDelete (st : VatStore) (k : Str) : VatStore :=
  match st with
  | [] => []
  | (k1, v1) :: rest => if k1 = k then rest else (k1, v1) :: storeDelete rest k

/-- Modelled from the spec: `vatstoreGetAfter(priorKey, lowerBound,
upperBound)` (the vat-store transport is an external collaborator): the
smallest key strictly greater than `priorKey` within
`[lowerBound, upperBound)`, with its value. -/
def getAfter (st : VatStore) (prior lo hi : Str) : Option (Str × Row) :=
  st.foldr
    (fun kv best =>
      if strLtB prior kv.1 && !(strLtB kv.1 lo) && strLtB kv.1 hi then
        match best with
        | none => some kv
        | some kv1 => if strLtB kv.1 kv1.1 then some kv else some kv1
      else best)
    none

/-- The four store kinds. -/
inductive KindName where
  | scalarMapStore
  | scalarWeakMapStore
  | scalarSetStore
  | scalarWeakSetStore
deriving DecidableEq

/-- `hasWeakKeys` from the `storeKindInfo` table. -/
def hasWeakKeysOf : KindName → Bool
  | .scalarMapStore => false
  | .scalarWeakMapStore => true
  | .scalarSetStore => false
  | .scalarWeakSetStore => true

/-- A call into the reference manager (`vrm`), recorded as an event so that
reference-count effects can be compared between states. -/
inductive VrmEvent where
  | addReachableVref (slot : Str)
  | removeReachableVref (slot : Str)
  | updateRefCounts (before after : List Str)
  | addRecognizableValue (slot : Str)
  | removeRecognizableValue (slot : Str)
deriving DecidableEq

/-- The failure kinds the modelled operations surface (`assert` throws in
the source). `fuelOut` is the model's marker for exhausted iteration fuel,
`badRow` for a `JSON.parse` applied to a non-JSON metadata row. -/
inductive Err where
  | schemaViolation
  | notFound
  | alreadyPresent
  | noOrdinal
  | decodeCorruption
  | concurrentModification
  | badRow
  | fuelOut
deriving DecidableEq

/-- The per-handle configuration `summonCollection` closes over. -/
structure Config where
  label : Str
  collectionID : Str
  kindName : KindName
  schema : Key → Bool

def Config.hasWeakKeys (cfg : Config) : Bool := hasWeakKeysOf cfg.kindName

/-- `dbKeyPrefix` from the source: `vc.<collectionID>.` . -/
def Config.dbKeyPfx (cfg : Config) : Str := ("vc.".data) ++ cfg.collectionID ++ ['.']

/-- `prefix(dbEntryKey)` from the source. -/
def pfxOf (cfg : Config) (k : Str) : Str := cfg.dbKeyPfx ++ k

/-- The mutable state an operation sees: the vat store, and the handle's
in-memory `size` and `currentGenerationNumber`, plus the log of reference
manager calls made so far. -/
structure St where
  store : VatStore
  size : Int
  gen : Nat
  log : List VrmEvent
deriving DecidableEq

/-- `getSlotForVal` (external): a remotable is modelled by its slot. -/
def getSlotForVal : Key → Str
  | .remotable s => s
  | _ => []

/-- The db key of the ordinal row of a slot: `prefix('|' + slot)`. -/
def ordinalKey (cfg : Config) (slot : Str) : Str := pfxOf cfg ('|' :: slot)

/-- The db key of the `|nextOrdinal` row. -/
def nextOrdinalKey (cfg : Config) : Str := pfxOf cfg ("|nextOrdinal".data)

/-- From the source: `getOrdinal` reads the ordinal row of a remotable. -/
def getOrdinal (cfg : Config) (store : VatStore) (k : Key) : Option Row :=
  storeGet store (ordinalKey cfg (getSlotForVal k))

/-- The string content of a row (`vatstoreGet` returns strings; entry rows
never reach the places this is used). -/
def rowStr : Row → Str
  | .raw s => s
  | .ser v => v.body

/-- JS string interpolation of a `vatstoreGet` result: `undefined` prints
as `"undefined"`. -/
def rowStrOpt : Option Row → Str
  | some r => rowStr r
  | none => "undefined".data

/-- Models `Number.parseInt(s, 10)` on a `vatstoreGet` result: `none` is
NaN (missing row, or a row that is not a digit string). -/
def jsParseInt (r : Option Row) : Option Nat :=
  match r with
  | some (.raw s) =>
    if s.isEmpty then none
    else if s.all (fun c => 48 ≤ c.toNat && c.toNat ≤ 57) then some (fromDigits 10 s)
    else none
  | _ => none

/-- JS interpolation `${nextOrdinal}` where `nextOrdinal` may be NaN. -/
def natOrNaNStr : Option Nat → Str
  | some n => jsToString 10 n
  | none => "NaN".data

/-- JS interpolation `${nextOrdinal + 1}` where `nextOrdinal` may be NaN. -/
def succOrNaNStr : Option Nat → Str
  | some n => jsToString 10 (n + 1)
  | none => "NaN".data

/-- From the source: `generateOrdinal` reads `|nextOrdinal`, stores it as
the remotable's ordinal and writes back the incremented value.  It only
touches the vat store.  Note: no overflow check of any kind. -/
def generateOrdinal (cfg : Config) (store : VatStore) (k : Key) : VatStore :=
  let nextOrdinal := jsParseInt (storeGet store (nextOrdinalKey cfg))
  let st1 := storeSet store (ordinalKey cfg (getSlotForVal k)) (.raw (natOrNaNStr nextOrdinal))
  storeSet st1 (nextOrdinalKey cfg) (.raw (succOrNaNStr nextOrdinal))

/-- From the source: `encodeKey`, dispatching on the pass style.  For a
remotable the stored ordinal string is zero-padded to 10 characters and
the slot appended; the `assert(ordinal !== undefined)` is the `noOrdinal`
error. -/
def encodeKey (cfg : Config) (store : VatStore) (k : Key) : Except Err Str :=
  match k with
  | .null => .ok ['z']
  | .undef => .ok ['u']
  | .num bits => .ok (numberToDBEntryKey bits)
  | .str s => .ok ('s' :: s)
  | .bool b => .ok ('b' :: (if b then "true".data else "false".data))
  | .bigint n => .ok (bigintToDBEntryKey n)
  | .remotable slot =>
    match storeGet store (ordinalKey cfg slot) with
    | none => .error .noOrdinal
    | some r => .ok (('r' :: zeroPad (rowStr r) BIGINT_TAG_LEN) ++ (':' :: slot))
  | .sym name => .ok ('y' :: name)

/-- From the source: `keyToDBKey`. -/
def keyToDBKey (cfg : Config) (store : VatStore) (k : Key) : Except Err Str :=
  match encodeKey cfg store k with
  | .ok e => .ok (pfxOf cfg e)
  | .error er => .error er

/-- From the source: `dbKeyToKey`, dispatching on the tag character after
the collection's db key prefix; an unknown tag is the `assert.fail`
(`DecodeCorruption`). -/
def dbKeyToKey (cfg : Config) (dbKey : Str) : Except Err Key :=
  let dbEntryKey := dbKey.drop cfg.dbKeyPfx.length
  match dbEntryKey with
  | [] => .error .decodeCorruption
  | c :: rest =>
    if c = 'z' then .ok .null
    else if c = 'u' then .ok .undef
    else if c = 'f' then .ok (.num (dbEntryKeyToNumber dbEntryKey))
    else if c = 's' then .ok (.str rest)
    else if c = 'b' then .ok (.bool (!(rest == "false".data)))
    else if c = 'n' then .ok (.bigint (dbEntryKeyToBigint dbEntryKey))
    else if c = 'p' then .ok (.bigint (dbEntryKeyToBigint dbEntryKey))
    else if c = 'r' then .ok (.remotable (dbEntryKey.drop (BIGINT_TAG_LEN + 2)))
    else if c = 'y' then .ok (.sym rest)
    else .error .decodeCorruption

/-- From the source: `has`.  A key failing the schema gives `false`; a
remotable is present iff it has an ordinal row; any other key is present
iff its encoded row exists. -/
def has (cfg : Config) (store : VatStore) (k : Key) : Bool :=
  if !(cfg.schema k) then false
  else
    match k with
    | .remotable _ => (getOrdinal cfg store k).isSome
    | _ =>
      match keyToDBKey cfg store k with
      | .ok dbk => (storeGet store dbk).isSome
      | .error _ => false

/-- From the source: `get`. -/
def get (cfg : Config) (store : VatStore) (k : Key) : Except Err SerVal :=
  if !(cfg.schema k) then .error .schemaViolation
  else
    match keyToDBKey cfg store k with
    | .error e => .error e
    | .ok dbk =>
      match storeGet store dbk with
      | some (.ser v) => .ok v
      | some (.raw _) => .error .badRow
      | none => .error .notFound

/-- From the source: `entryDeleter(vobjID)`, the weak-key reclamation
callback: deletes the ordinal row and the entry row, and nothing else —
in particular it does not touch `size` and makes no reference-manager
calls for the value's slots. -/
def entryDeleter (cfg : Config) (store : VatStore) (vobjID : Str) : VatStore :=
  let ordKey := ordinalKey cfg vobjID
  let ordinalString := rowStrOpt (storeGet store ordKey)
  let st1 := storeDelete store ordKey
  let ordinalTag := zeroPad ordinalString BIGINT_TAG_LEN
  storeDelete st1 (pfxOf cfg (('r' :: ordinalTag) ++ (':' :: vobjID)))

/-- From the source: `init`.  Schema and absence are asserted before any
mutation; then the generation counter is bumped, a remotable key gets an
ordinal and is either strongly referenced or registered as recognizable,
the value's slots are referenced, the row is written and `size` bumped. -/
def init (cfg : Config) (st : St) (k : Key) (v : SerVal) : Except Err Unit × St :=
  if !(cfg.schema k) then (.error .schemaViolation, st)
  else if has cfg st.store k then (.error .alreadyPresent, st)
  else
    let st1 : St := { st with gen := st.gen + 1 }
    let st2 : St :=
      match k with
      | .remotable slot =>
        let stg : St := { st1 with store := generateOrdinal cfg st1.store k }
        if cfg.hasWeakKeys then { stg with log := stg.log ++ [.addRecognizableValue slot] }
        else { stg with log := stg.log ++ [.addReachableVref slot] }
      | _ => st1
    let st3 : St := { st2 with log := st2.log ++ v.slots.map .addReachableVref }
    match keyToDBKey cfg st3.store k with
    | .error e => (.error e, st3)
    | .ok dbk => (.ok (), { st3 with store := storeSet st3.store dbk (.ser v), size := st3.size + 1 })

/-- From the source: `set`.  Requires schema match and presence; replaces
the row after handing `(before.slots, after.slots)` to the reference
manager.  It does not touch `size` or the generation counter. -/
def set (cfg : Config) (st : St) (k : Key) (v : SerVal) : Except Err Unit × St :=
  if !(cfg.schema k) then (.error .schemaViolation, st)
  else
    match keyToDBKey cfg st.store k with
    | .error e => (.error e, st)
    | .ok dbk =>
      match storeGet st.store dbk with
      | none => (.error .notFound, st)
      | some (.raw _) => (.error .badRow, st)
      | some (.ser before) =>
        let st1 : St := { st with log := st.log ++ [.updateRefCounts before.slots v.slots] }
        (.ok (), { st1 with store := storeSet st1.store dbk (.ser v) })

/-- From the source: `deleteInternal`.  Requires schema match and
presence; dereferences the value's slots, deletes the row, and for a
remotable key also drops the reference or recognizer and the ordinal row;
decrements `size`.  Does not touch the generation counter. -/
def deleteInternal (cfg : Config) (st : St) (k : Key) : Except Err Unit × St :=
  if !(cfg.schema k) then (.error .schemaViolation, st)
  else
    match keyToDBKey cfg st.store k with
    | .error e => (.error e, st)
    | .ok dbk =>
      match storeGet st.store dbk with
      | none => (.error .notFound, st)
      | some (.raw _) => (.error .badRow, st)
      | some (.ser value) =>
        let st1 : St := { st with log := st.log ++ value.slots.map .removeReachableVref }
        let st2 : St := { st1 with store := storeDelete st1.store dbk }
        let st3 : St :=
          match k with
          | .remotable slot =>
            let sta : St :=
              if cfg.hasWeakKeys then { st2 with log := st2.log ++ [.removeRecognizableValue slot] }
              else { st2 with log := st2.log ++ [.removeReachableVref slot] }
            { sta with store := storeDelete sta.store (ordinalKey cfg slot) }
          | _ => st2
        (.ok (), { st3 with size := st3.size - 1 })

/-- From the source: the public `delete` bumps the generation counter
first and then runs `deleteInternal` (so even a failing delete bumps it). -/
def del (cfg : Config) (st : St) (k : Key) : Except Err Unit × St :=
  deleteInternal cfg { st with gen := st.gen + 1 } k

/-- The iterator state of the generator in `entriesInternal`:
`generationAtStart` is captured when iteration starts, `priorDBKey`
advances through the store. -/
structure IterState where
  genAtStart : Nat
  priorDBKey : Str
deriving DecidableEq

/-- What one iteration of the generator's `while` loop does. -/
inductive StepRes where
  | done
  | yield (k : Key) (v : Option SerVal) (it : IterState)
  | skip (it : IterState)
deriving DecidableEq

/-- One iteration of the `while` loop in `entriesInternal`'s generator:
check the generation counter, probe `getAfter`, decode, filter by the key
and value patterns.  `startB`/`endB` are the prefixed rank-cover bounds
(the cover itself comes from the external pattern kit, so it is a
parameter here); `ignoreValues` is `!needValue && pattEq(valuePatt, any)`
from the source. -/
def iterStep (cfg : Config) (keyPatt : Key → Bool) (valuePatt : SerVal → Bool)
    (ignoreValues : Bool) (startB endB : Str) (it : IterState) (st : St) :
    Except Err StepRes :=
  if it.genAtStart ≠ st.gen then .error .concurrentModification
  else
    match getAfter st.store it.priorDBKey startB endB with
    | none => .ok .done
    | some (dbKey, dbValue) =>
      if strLtB dbKey endB then
        let it1 : IterState := { it with priorDBKey := dbKey }
        match dbKeyToKey cfg dbKey with
        | .error e => .error e
        | .ok key =>
          if keyPatt key then
            if ignoreValues then .ok (.yield key none it1)
            else
              match dbValue with
              | .raw _ => .error .badRow
              | .ser v => if valuePatt v then .ok (.yield key (some v) it1) else .ok (.skip it1)
          else .ok (.skip it1)
      else .ok (.skip it)

/-- The loop of `clear`: iterate `keys(keyPatt, valuePatt)` and delete each
yielded key through `deleteInternal`.  Fuel only bounds the number of loop
iterations the model unrolls (`fuelOut` marks exhaustion); the JS loop
terminates because every probe advances `priorDBKey`. -/
def clearLoop (cfg : Config) (keyPatt : Key → Bool) (valuePatt : SerVal → Bool)
    (ignoreValues : Bool) (startB endB : Str) :
    Nat → IterState → St → Except Err Unit × St
  | 0, _, st => (.error .fuelOut, st)
  | fuel + 1, it, st =>
    match iterStep cfg keyPatt valuePatt ignoreValues startB endB it st with
    | .error e => (.error e, st)
    | .ok .done => (.ok (), st)
    | .ok (.skip it1) => clearLoop cfg keyPatt valuePatt ignoreValues startB endB fuel it1 st
    | .ok (.yield k _ it1) =>
      match deleteInternal cfg st k with
      | (.ok _, st1) => clearLoop cfg keyPatt valuePatt ignoreValues startB endB fuel it1 st1
      | (.error e, st1) => (.error e, st1)

/-- From the source: `clear` iterates matching keys, deletes each through
`deleteInternal`, and bumps the generation counter once at the end.
`coverStart`/`coverEnd` are the rank cover `getRankCover` returns for the
key pattern (external pattern kit, hence parameters). -/
def clear (cfg : Config) (keyPatt : Key → Bool) (valuePatt : SerVal → Bool)
    (ignoreValues : Bool) (coverStart coverEnd : Str) (fuel : Nat) (st : St) :
    Except Err Unit × St :=
  match clearLoop cfg keyPatt valuePatt ignoreValues (pfxOf cfg coverStart) (pfxOf cfg coverEnd)
      fuel { genAtStart := st.gen, priorDBKey := [] } st with
  | (.ok _, st1) => (.ok (), { st1 with gen := st1.gen + 1 })
  | (.error e, st1) => (.error e, st1)

/-- From the source: `summonCollection(label, collectionID, kindName,
keySchema)` builds the per-handle configuration; the db key prefix is
`vc.<collectionID>.` (its `size` and generation counter start at 0 in a
fresh `St`). -/
def summonCollection (label collectionID : Str) (kindName : KindName)
    (schema : Key → Bool) : Config :=
  { label := label, collectionID := collectionID, kindName := kindName, schema := schema }

/-- `prefixc(collectionID, dbEntryKey)` from the source. -/
def prefixcKey (collectionID : Str) (k : Str) : Str :=
  ("vc.".data) ++ collectionID ++ ('.' :: k)

/-- From the source: `makeCollection` allocates a collection ID, writes
`|nextOrdinal = 1`, `|keySchema`, `|label`, and returns the external
identifier `o+<kindID>/<collectionID>` with the handle.  The collection ID
and kind ID allocators and the serialized schema text are external inputs
here. -/
def makeCollection (label : Str) (kindName : KindName) (schema : Key → Bool)
    (collectionID kindID : Nat) (serializedSchema : Str) (st : St) :
    Str × Config × St :=
  let cid := jsToString 10 collectionID
  let vobjID := ("o+".data) ++ jsToString 10 kindID ++ ('/' :: cid)
  let st1 : St := { st with store := storeSet st.store (prefixcKey cid ("|nextOrdinal".data)) (.raw ("1".data)) }
  let st2 : St := { st1 with store := storeSet st1.store (prefixcKey cid ("|keySchema".data)) (.raw serializedSchema) }
  let st3 : St := { st2 with store := storeSet st2.store (prefixcKey cid ("|label".data)) (.raw label) }
  (vobjID, summonCollection label cid kindName schema, st3)

/-- Modelled from the spec: `parseVatSlot` (from `parseVatSlots.js`, which
is not among the repository's files): the wire form is
`o+<kindID>/<collectionID>`, and `id`/`subid` are its two numeric fields
(kept as digit strings; JS re-interpolates them into strings anyway). -/
def parseVatSlot (vobjID : Str) : Str × Str :=
  let rest := vobjID.drop 2
  (rest.takeWhile (fun c => c ≠ '/'), (rest.dropWhile (fun c => c ≠ '/')).drop 1)

/-- From the source: `reanimateCollection` parses the external ID, reads
back `|keySchema` and `|label` from the rows of collection `subid`, and
calls `summonCollection(subid, label, kindName, keySchema)` — note the
argument order: `subid` lands in the `label` parameter and `label` in the
`collectionID` parameter.  `kindOf` models the `storeKindIDToName` lookup
and `unser` the external `unserialize` of the schema row. -/
def reanimateCollection (kindOf : Str → KindName) (unser : Option Row → Key → Bool)
    (vobjID : Str) (proForma : Bool) (store : VatStore) : Option Config :=
  if proForma then none
  else
    let p := parseVatSlot vobjID
    let subid := p.2
    let kindName := kindOf p.1
    let keySchema := unser (storeGet store (prefixcKey subid ("|keySchema".data)))
    let label := rowStrOpt (storeGet store (prefixcKey subid ("|label".data)))
    some (summonCollection subid label kindName keySchema)

/-- Is this row's key an entry row of the collection: under the prefix and
not a metadata row (first character after the prefix is not `|`)? -/
def strStarts : Str → Str → Bool
  | [], _ => true
  | _ :: _, [] => false
  | a :: ps, b :: ss => a == b && strStarts ps ss

def isEntryRowKey (cfg : Config) (k : Str) : Bool :=
  strStarts cfg.dbKeyPfx k && !((k.drop cfg.dbKeyPfx.length).headD '|' == '|')

/-- The number of entry rows (non-metadata rows under the prefix). -/
def countNonMeta (cfg : Config) (store : VatStore) : Nat :=
  (store.filter (fun kv => isEntryRowKey cfg kv.1)).length

/-- The size invariant of the spec: the in-memory counter equals the
number of entry rows. -/
def sizeInv (cfg : Config) (st : St) : Prop :=
  st.size = (countNonMeta cfg st.store : Int)

/-- The db key `init` is about to write for key `k` (after the ordinal
allocation a remotable `init` performs). -/
def initWriteKey (cfg : Config) (store : VatStore) (k : Key) : Option Str :=
  match k with
  | .remotable _ => (keyToDBKey cfg (generateOrdinal cfg store k) k).toOption
  | _ => (keyToDBKey cfg store k).toOption

/-! ### Concrete sample configurations and states used by the closed theorems -/

def st0 : St := { store := [], size := 0, gen := 0, log := [] }

def cfgT : Config :=
  { label := "L".data, collectionID := "1".data, kindName := .scalarMapStore,
    schema := fun _ => true }

def stT : St :=
  { store := [(pfxOf cfgT ('s' :: ("k2".data)), .ser { body := "B".data, slots := [] })],
    size := 1, gen := 0, log := [] }

def cfgW : Config :=
  { label := [], collectionID := "1".data, kindName := .scalarWeakSetStore,
    schema := fun _ => true }

def stW : St :=
  { store :=
      [ (ordinalKey cfgW ("o-1".data), .raw ("1".data)),
        (pfxOf cfgW (("r0000000001:".data) ++ ("o-1".data)), .ser { body := [], slots := [] }),
        (nextOrdinalKey cfgW, .raw ("2".data)) ],
    size := 1, gen := 0, log := [] }

def cfgOrd : Config :=
  { label := [], collectionID := "7".data, kindName := .scalarMapStore,
    schema := fun _ => true }

def stoOrd : VatStore := [(nextOrdinalKey cfgOrd, .raw ("9999999999".data))]

def mkDemo : Str × Config × St :=
  makeCollection ("L".data) .scalarMapStore (fun _ => true) 1 5 ("SCH".data) st0

def cfgDemo : Config := mkDemo.2.1

def stDemo : St :=
  (init mkDemo.2.1 mkDemo.2.2 (.str ("k".data)) { body := "B".data, slots := [] }).2

def reanDemo : Option Config :=
  reanimateCollection (fun _ => .scalarMapStore) (fun _ _ => true) mkDemo.1 false stDemo.store

def cfgF : Config :=
  { label := "L".data, collectionID := "1".data, kindName := .scalarMapStore,
    schema := fun _ => false }

instance validNum_decidable (a : Nat) : Decidable (validNum a) :=
  inferInstanceAs (Decidable (_ ∧ _))

instance sizeInv_decidable (cfg : Config) (st : St) : Decidable (sizeInv cfg st) :=
  inferInstanceAs (Decidable (_ = _))

end AG

/-! ## Theorems -/

namespace AG

theorem char_toNat_inj {a b : Char} (h : a.toNat = b.toNat) : a = b :=
  Char.eq_of_val_eq (UInt32.ext h)

theorem strLtB_irrefl (s : Str) : strLtB s s = false := by
  induction s with
  | nil => rfl
  | cons c cs ih => simp [strLtB, ih]

theorem strLtB_cons_same (c : Char) (xs ys : Str) :
    strLtB (c :: xs) (c :: ys) = strLtB xs ys := by
  simp [strLtB]

theorem strLtB_cons_of_lt {a b : Char} (h : a.toNat < b.toNat) (xs ys : Str) :
    strLtB (a :: xs) (b :: ys) = true := by
  simp [strLtB, h]

theorem strLtB_append_congr (as bs : Str) :
    ∀ (xs ys : Str), xs.length = ys.length →
      strLtB (xs ++ as) (ys ++ bs) =
        (if xs = ys then strLtB as bs else strLtB xs ys) := by
  intro xs
  induction xs with
  | nil =>
    intro ys h
    cases ys with
    | nil => simp
    | cons b bs1 => simp at h
  | cons a as1 ih =>
    intro ys h
    cases ys with
    | nil => simp at h
    | cons b bs1 =>
      rcases Nat.lt_trichotomy a.toNat b.toNat with hlt | heq | hgt
      · have hne : (a :: as1) ≠ (b :: bs1) := by
          intro hc
          cases hc
          exact Nat.lt_irrefl _ hlt
        rw [if_neg hne, List.cons_append, List.cons_append,
          strLtB_cons_of_lt hlt, strLtB_cons_of_lt hlt]
      · have hab : a = b := char_toNat_inj heq
        subst hab
        rw [List.cons_append, List.cons_append, strLtB_cons_same,
          ih bs1 (by simpa using h)]
        by_cases hxy : as1 = bs1
        · subst hxy
          simp
        · rw [if_neg hxy, if_neg (by simpa using hxy), strLtB_cons_same]
      · have hne : (a :: as1) ≠ (b :: bs1) := by
          intro hc
          cases hc
          exact Nat.lt_irrefl _ hgt
        have hfa : strLtB (a :: (as1 ++ as)) (b :: (bs1 ++ bs)) = false := by
          simp [strLtB, hgt, Nat.le_of_lt hgt |>.not_lt]
        have hfb : strLtB (a :: as1) (b :: bs1) = false := by
          simp [strLtB, hgt, Nat.le_of_lt hgt |>.not_lt]
        rw [if_neg hne, List.cons_append, List.cons_append, hfa, hfb]

theorem strLtB_ne_of_lt {xs ys : Str} (h : strLtB xs ys = true) : xs ≠ ys := by
  intro hc
  subst hc
  rw [strLtB_irrefl] at h
  exact Bool.false_ne_true h

theorem toPad_length (b : Nat) : ∀ w n, (toPad b w n).length = w := by
  intro w
  induction w with
  | zero => intro n; rfl
  | succ w ih => intro n; simp [toPad, ih]

theorem digitChar_mono : ∀ d1, d1 < 16 → ∀ d2, d2 < 16 → d1 < d2 →
    (digitChar d1).toNat < (digitChar d2).toNat := by decide

theorem digitChar_inj : ∀ d1, d1 < 16 → ∀ d2, d2 < 16 →
    digitChar d1 = digitChar d2 → d1 = d2 := by decide

theorem div_mod_lt_iff (b m n : Nat) (_hb : 0 < b) :
    m < n ↔ (m / b < n / b ∨ (m / b = n / b ∧ m % b < n % b)) := by
  have hm := Nat.div_add_mod m b
  have hn := Nat.div_add_mod n b
  constructor
  · intro h
    rcases Nat.lt_trichotomy (m / b) (n / b) with hlt | heq | hgt
    · exact Or.inl hlt
    · rw [heq] at hm
      exact Or.inr ⟨heq, by omega⟩
    · exact absurd (Nat.lt_of_div_lt_div hgt) (by omega)
  · intro h
    rcases h with hlt | ⟨heq, hmod⟩
    · exact Nat.lt_of_div_lt_div hlt
    · rw [heq] at hm
      omega

theorem strLtB_singleton_iff (a c : Char) : strLtB [a] [c] = true ↔ a.toNat < c.toNat := by
  by_cases h : a.toNat < c.toNat
  · simp [strLtB, h]
  · by_cases h2 : c.toNat < a.toNat
    · simp [strLtB, h, h2]
    · simp [strLtB, h, h2]

theorem toPad_inj (b : Nat) (hb2 : 2 ≤ b) (hb16 : b ≤ 16) :
    ∀ w m n, m < b ^ w → n < b ^ w → toPad b w m = toPad b w n → m = n := by
  intro w
  induction w with
  | zero =>
    intro m n hm hn _
    simp [pow_zero] at hm hn
    omega
  | succ w ih =>
    intro m n hm hn h
    simp only [toPad] at h
    have hlen : (toPad b w (m / b)).length = (toPad b w (n / b)).length := by
      rw [toPad_length, toPad_length]
    obtain ⟨h1, h2⟩ := List.append_inj h hlen
    have hdiv : m / b < b ^ w := by
      rw [Nat.div_lt_iff_lt_mul (by omega)]
      calc m < b ^ (w + 1) := hm
        _ = b ^ w * b := by rw [pow_succ]
    have hdiv2 : n / b < b ^ w := by
      rw [Nat.div_lt_iff_lt_mul (by omega)]
      calc n < b ^ (w + 1) := hn
        _ = b ^ w * b := by rw [pow_succ]
    have hq := ih (m / b) (n / b) hdiv hdiv2 h1
    have hr : m % b = n % b := by
      have := List.head_eq_of_cons_eq h2
      exact digitChar_inj (m % b) (by have := Nat.mod_lt m (show 0 < b by omega); omega)
        (n % b) (by have := Nat.mod_lt n (show 0 < b by omega); omega) this
    have hm2 := Nat.div_add_mod m b
    have hn2 := Nat.div_add_mod n b
    rw [hq] at hm2
    omega

theorem toPad_lt_iff (b : Nat) (hb2 : 2 ≤ b) (hb16 : b ≤ 16) :
    ∀ w m n, m < b ^ w → n < b ^ w →
      (strLtB (toPad b w m) (toPad b w n) = true ↔ m < n) := by
  intro w
  induction w with
  | zero =>
    intro m n hm hn
    simp [pow_zero] at hm hn
    subst hm; subst hn
    simp [toPad, strLtB]
  | succ w ih =>
    intro m n hm hn
    have hdivm : m / b < b ^ w := by
      rw [Nat.div_lt_iff_lt_mul (by omega)]
      calc m < b ^ (w + 1) := hm
        _ = b ^ w * b := by rw [pow_succ]
    have hdivn : n / b < b ^ w := by
      rw [Nat.div_lt_iff_lt_mul (by omega)]
      calc n < b ^ (w + 1) := hn
        _ = b ^ w * b := by rw [pow_succ]
    have hmodm : m % b < b := Nat.mod_lt m (by omega)
    have hmodn : n % b < b := Nat.mod_lt n (by omega)
    simp only [toPad]
    rw [strLtB_append_congr _ _ _ _ (by rw [toPad_length, toPad_length])]
    by_cases hq : toPad b w (m / b) = toPad b w (n / b)
    · have hqq : m / b = n / b := toPad_inj b hb2 hb16 w _ _ hdivm hdivn hq
      rw [if_pos hq]
      rw [div_mod_lt_iff b m n (by omega)]
      constructor
      · intro hlt
        refine Or.inr ⟨hqq, ?_⟩
        by_contra hge
        rcases Nat.lt_trichotomy (m % b) (n % b) with h1 | h1 | h1
        · exact hge h1
        · rw [h1] at hlt
          rw [strLtB_irrefl] at hlt
          exact Bool.false_ne_true hlt
        · rw [strLtB_singleton_iff] at hlt
          have := digitChar_mono _ (by omega : n % b < 16) _ (by omega : m % b < 16) h1
          omega
      · intro hor
        rcases hor with h1 | ⟨_, h1⟩
        · omega
        · exact strLtB_cons_of_lt (digitChar_mono _ (by omega) _ (by omega) h1) [] []
    · have hqq : m / b ≠ n / b := fun hc => hq (by rw [hc])
      rw [if_neg hq]
      rw [ih (m / b) (n / b) hdivm hdivn]
      rw [div_mod_lt_iff b m n (by omega)]
      constructor
      · intro h1; exact Or.inl h1
      · intro hor
        rcases hor with h1 | ⟨h1, _⟩
        · exact h1
        · exact absurd h1 hqq

theorem toDigitsAux_fuel_eq (b : Nat) (hb : 2 ≤ b) :
    ∀ n f1 f2, n < f1 → n < f2 → toDigitsAux b f1 n = toDigitsAux b f2 n := by
  intro n
  induction n using Nat.strong_induction_on with
  | _ n ih =>
    intro f1 f2 h1 h2
    match f1, f2 with
    | g1 + 1, g2 + 1 =>
      simp only [toDigitsAux]
      by_cases hnb : n < b
      · simp [hnb]
      · simp only [hnb, if_false]
        have hlt : n / b < n := Nat.div_lt_self (by omega) (by omega)
        rw [ih (n / b) hlt g1 g2 (by omega) (by omega)]

theorem jsToString_of_lt (b n : Nat) (h : n < b) : jsToString b n = [digitChar n] := by
  simp [jsToString, toDigitsAux, h]

theorem jsToString_of_ge (b n : Nat) (hb : 2 ≤ b) (h : b ≤ n) :
    jsToString b n = jsToString b (n / b) ++ [digitChar (n % b)] := by
  have hn : ¬(n < b) := by omega
  show toDigitsAux b (n + 1) n = _
  simp only [toDigitsAux, hn, if_false]
  have hlt : n / b < n := Nat.div_lt_self (by omega) (by omega)
  rw [toDigitsAux_fuel_eq b hb (n / b) n (n / b + 1) hlt (by omega)]
  rfl

theorem jsToString_length_pos (b n : Nat) (hb : 2 ≤ b) :
    1 ≤ (jsToString b n).length := by
  by_cases h : n < b
  · rw [jsToString_of_lt b n h]; simp
  · rw [jsToString_of_ge b n hb (by omega)]; simp

theorem zeroPad_snoc (s : Str) (c : Char) (w : Nat) :
    zeroPad (s ++ [c]) (w + 1) = zeroPad s w ++ [c] := by
  simp only [zeroPad]
  rw [show zeros18 ++ (s ++ [c]) = (zeros18 ++ s) ++ [c] from by simp]
  have hlen : (zeros18 ++ s ++ [c]).length = (zeros18 ++ s).length + 1 := by
    simp only [List.length_append, List.length_cons, List.length_nil]
  rw [hlen]
  have hsub : (zeros18 ++ s).length + 1 - (w + 1) = (zeros18 ++ s).length - w :=
    Nat.succ_sub_succ _ _
  rw [hsub]
  exact List.drop_append_of_le_length (Nat.sub_le _ _)

theorem zeros18_eq : zeros18 = List.replicate 18 '0' := by decide

theorem zeroPad_nil (w : Nat) (h : w ≤ 18) : zeroPad [] w = List.replicate w '0' := by
  simp only [zeroPad, List.append_nil, zeros18_eq]
  rw [List.drop_replicate]
  congr 1
  simp
  omega

theorem digitChar_zero : digitChar 0 = '0' := by decide

theorem toPad_zero (b w : Nat) : toPad b w 0 = List.replicate w '0' := by
  induction w with
  | zero => rfl
  | succ w ih =>
    simp only [toPad, Nat.zero_div, Nat.zero_mod, ih, digitChar_zero]
    exact (List.replicate_succ' w '0').symm

theorem zeroPad_jsToString (b : Nat) (hb : 2 ≤ b) :
    ∀ w n, n < b ^ w → w ≤ 18 + (jsToString b n).length →
      zeroPad (jsToString b n) w = toPad b w n := by
  intro w
  induction w with
  | zero =>
    intro n hn _
    simp [pow_zero] at hn
    subst hn
    rw [jsToString_of_lt b 0 (by omega)]
    simp [zeroPad, toPad]
  | succ w ih =>
    intro n hn hw
    by_cases hnb : n < b
    · rw [jsToString_of_lt b n hnb] at hw ⊢
      rw [show [digitChar n] = ([] : Str) ++ [digitChar n] from rfl, zeroPad_snoc]
      simp only [List.length_cons, List.length_nil] at hw
      rw [zeroPad_nil w (by omega)]
      simp only [toPad]
      rw [Nat.div_eq_of_lt hnb, Nat.mod_eq_of_lt hnb, toPad_zero]
    · rw [jsToString_of_ge b n hb (by omega)] at hw ⊢
      rw [zeroPad_snoc]
      simp only [toPad]
      have hdiv : n / b < b ^ w := by
        rw [Nat.div_lt_iff_lt_mul (by omega)]
        calc n < b ^ (w + 1) := hn
          _ = b ^ w * b := by rw [pow_succ]
      rw [ih (n / b) hdiv (by simp at hw; omega)]

theorem jsToString_eq_toPad (b : Nat) (hb : 2 ≤ b) :
    ∀ n, jsToString b n = toPad b (jsToString b n).length n := by
  intro n
  induction n using Nat.strong_induction_on with
  | _ n ih =>
    by_cases hnb : n < b
    · rw [jsToString_of_lt b n hnb]
      simp only [List.length_cons, List.length_nil]
      simp only [toPad]
      simp [Nat.mod_eq_of_lt hnb]
    · rw [jsToString_of_ge b n hb (by omega)]
      simp only [List.length_append, List.length_cons, List.length_nil]
      simp only [toPad]
      have hlt : n / b < n := Nat.div_lt_self (by omega) (by omega)
      rw [← ih (n / b) hlt]

theorem jsToString_length_le_iff (b : Nat) (hb : 2 ≤ b) :
    ∀ n w, 1 ≤ w → ((jsToString b n).length ≤ w ↔ n < b ^ w) := by
  intro n
  induction n using Nat.strong_induction_on with
  | _ n ih =>
    intro w hw
    by_cases hnb : n < b
    · rw [jsToString_of_lt b n hnb]
      simp only [List.length_cons, List.length_nil]
      constructor
      · intro _
        calc n < b := hnb
          _ = b ^ 1 := (pow_one b).symm
          _ ≤ b ^ w := Nat.pow_le_pow_right (by omega) hw
      · intro _; omega
    · rw [jsToString_of_ge b n hb (by omega)]
      simp only [List.length_append, List.length_cons, List.length_nil]
      match w, hw with
      | 1, _ =>
        constructor
        · intro h
          have := jsToString_length_pos b (n / b) hb
          omega
        · intro h
          rw [pow_one] at h
          omega
      | w + 2, _ =>
        have hlt : n / b < n := Nat.div_lt_self (by omega) (by omega)
        have hih := ih (n / b) hlt (w + 1) (by omega)
        constructor
        · intro h
          have h2 : (jsToString b (n / b)).length ≤ w + 1 := by omega
          have h3 := hih.mp h2
          have : n < b ^ (w + 1) * b := by
            rw [← Nat.div_lt_iff_lt_mul (by omega)]
            exact h3
          calc n < b ^ (w + 1) * b := this
            _ = b ^ (w + 2) := by rw [← pow_succ]
        · intro h
          have h3 : n / b < b ^ (w + 1) := by
            rw [Nat.div_lt_iff_lt_mul (by omega)]
            calc n < b ^ (w + 2) := h
              _ = b ^ (w + 1) * b := by rw [pow_succ]
          have := hih.mpr h3
          omega

theorem nat_bit_xor (r s : Bool) (q p : Nat) :
    (Nat.bit r q) ^^^ (Nat.bit s p) = Nat.bit (r.xor s) (q ^^^ p) := by
  show Nat.bitwise bne _ _ = _
  rw [Nat.bitwise_bit]
  cases r <;> cases s <;> rfl

theorem xor_all_ones : ∀ w a, a < 2 ^ w → a ^^^ (2 ^ w - 1) = 2 ^ w - 1 - a := by
  intro w
  induction w with
  | zero =>
    intro a ha
    have : a = 0 := by omega
    subst this
    rfl
  | succ w ih =>
    intro a ha
    have hone : 1 ≤ 2 ^ w := Nat.one_le_two_pow
    have hbit : Nat.bit a.bodd a.div2 = a := Nat.bit_decomp a
    have h2 : 2 ^ (w + 1) - 1 = Nat.bit true (2 ^ w - 1) := by
      rw [Nat.bit_val, pow_succ]
      simp only [Bool.toNat_true]
      omega
    have hdiv : a.div2 < 2 ^ w := by
      rw [Nat.div2_val, Nat.div_lt_iff_lt_mul (by omega)]
      calc a < 2 ^ (w + 1) := ha
        _ = 2 ^ w * 2 := by rw [pow_succ]
    rw [← hbit, h2, nat_bit_xor, ih a.div2 hdiv]
    simp only [Nat.bit_val]
    cases hbo : a.bodd <;> simp <;> omega

theorem xor_sign_low : ∀ w a, a < 2 ^ w → a ^^^ 2 ^ w = a + 2 ^ w := by
  intro w
  induction w with
  | zero =>
    intro a ha
    have : a = 0 := by omega
    subst this
    rfl
  | succ w ih =>
    intro a ha
    have hbit : Nat.bit a.bodd a.div2 = a := Nat.bit_decomp a
    have h2 : 2 ^ (w + 1) = Nat.bit false (2 ^ w) := by
      rw [Nat.bit_val, pow_succ]
      simp only [Bool.toNat_false]
      omega
    have hdiv : a.div2 < 2 ^ w := by
      rw [Nat.div2_val, Nat.div_lt_iff_lt_mul (by omega)]
      calc a < 2 ^ (w + 1) := ha
        _ = 2 ^ w * 2 := by rw [pow_succ]
    rw [← hbit, h2, nat_bit_xor, ih a.div2 hdiv]
    simp only [Nat.bit_val]
    cases hbo : a.bodd <;> simp <;> omega

theorem xor_sign_high (a : Nat) (h1 : 2 ^ 63 ≤ a) (h2 : a < 2 ^ 64) :
    a ^^^ 2 ^ 63 = a - 2 ^ 63 := by
  have hlow : (a - 2 ^ 63) < 2 ^ 63 := by omega
  have := xor_sign_low 63 (a - 2 ^ 63) hlow
  have ha : a = (a - 2 ^ 63) ^^^ 2 ^ 63 := by omega
  calc a ^^^ 2 ^ 63 = ((a - 2 ^ 63) ^^^ 2 ^ 63) ^^^ 2 ^ 63 := by rw [← ha]
    _ = (a - 2 ^ 63) ^^^ (2 ^ 63 ^^^ 2 ^ 63) := Nat.xor_assoc _ _ _
    _ = (a - 2 ^ 63) ^^^ 0 := by rw [Nat.xor_self]
    _ = a - 2 ^ 63 := Nat.xor_zero _

theorem M64_eq : M64 = 2 ^ 64 - 1 := by decide

theorem H64_eq : H64 = 2 ^ 63 := by decide

/-- The transformed bits `numberToDBEntryKey` formats, arithmetically. -/
theorem numXform_eq (a : Nat) (ha : validNum a) (ha0 : a ≠ H64) :
    (if jsLtZeroNum a then a ^^^ M64 else a ^^^ H64) =
      (if H64 < a then M64 - a else a + H64) := by
  obtain ⟨h64, hN⟩ := ha
  by_cases hgt : H64 < a
  · have hnan : isNaNpat a = false := by
      cases hisN : isNaNpat a
      · rfl
      · have := hN hisN
        rw [this] at hgt
        exact absurd hgt (by decide)
    have hjs : jsLtZeroNum a = true := by
      simp [jsLtZeroNum, hgt, hnan]
    rw [if_pos hjs, if_pos hgt, M64_eq, xor_all_ones 64 a h64]
  · have hjs : jsLtZeroNum a = false := by
      simp [jsLtZeroNum]
      intro hc
      exact absurd hc hgt
    have hlt : a < H64 := by
      rcases Nat.lt_trichotomy a H64 with h | h | h
      · exact h
      · exact absurd h ha0
      · exact absurd h hgt
    rw [if_neg (by simp [hjs]), if_neg hgt, H64_eq,
      xor_sign_low 63 a (by rw [← H64_eq]; exact hlt), ← H64_eq]

theorem numXform_lt (a : Nat) (ha : validNum a) :
    (if jsLtZeroNum a then a ^^^ M64 else a ^^^ H64) < 2 ^ 64 := by
  obtain ⟨h64, _⟩ := ha
  by_cases hjs : jsLtZeroNum a
  · rw [if_pos hjs, M64_eq, xor_all_ones 64 a h64]
    omega
  · rw [if_neg hjs]
    by_cases hlt : a < 2 ^ 63
    · rw [H64_eq, xor_sign_low 63 a hlt]
      omega
    · rw [H64_eq, xor_sign_high a (by omega) h64]
      omega

theorem sixteen_pow : (16 : Nat) ^ 16 = 2 ^ 64 := by norm_num

theorem numberToDBEntryKey_eq_toPad (a : Nat) (ha : validNum a) :
    numberToDBEntryKey a =
      'f' :: toPad 16 16 (if jsLtZeroNum a then a ^^^ M64 else a ^^^ H64) := by
  have hdef : numberToDBEntryKey a =
      'f' :: zeroPad (jsToString 16 (if jsLtZeroNum a then a ^^^ M64 else a ^^^ H64)) 16 := rfl
  rw [hdef]
  congr 1
  exact zeroPad_jsToString 16 (by omega) 16 _
    (by rw [sixteen_pow]; exact numXform_lt a ha)
    (by have := jsToString_length_pos 16 (if jsLtZeroNum a then a ^^^ M64 else a ^^^ H64) (by omega); omega)

theorem natAbs_lt_pow_len (n : Nat) : n < 10 ^ (jsToString 10 n).length :=
  (jsToString_length_le_iff 10 (by omega) n _ (jsToString_length_pos 10 n (by omega))).mp
    (le_refl _)

theorem len_le_19 (n : Nat) (h : n < 10 ^ 19) : (jsToString 10 n).length ≤ 19 :=
  (jsToString_length_le_iff 10 (by omega) n 19 (by omega)).mpr h

theorem bigintEnc_neg (n : Int) (hneg : n < 0) (hlt : n.natAbs < 10 ^ 19) :
    bigintToDBEntryKey n =
      ('n' :: toPad 10 10 (BIGINT_LEN_MODULUS - (jsToString 10 n.natAbs).length)) ++
        (':' :: toPad 10 ((jsToString 10 n.natAbs).length)
          (10 ^ (jsToString 10 n.natAbs).length - n.natAbs)) := by
  have h1 : (-n).toNat = n.natAbs := by omega
  have habs1 : 1 ≤ n.natAbs := by omega
  have hL1 : 1 ≤ (jsToString 10 n.natAbs).length := jsToString_length_pos 10 _ (by omega)
  have hup : n.natAbs < 10 ^ (jsToString 10 n.natAbs).length := natAbs_lt_pow_len n.natAbs
  have hL19 : (jsToString 10 n.natAbs).length ≤ 19 := len_le_19 n.natAbs hlt
  have hcast : ((10 : Int) ^ (jsToString 10 n.natAbs).length) =
      ((10 ^ (jsToString 10 n.natAbs).length : Nat) : Int) := by push_cast; ring
  have hval : (((10 : Int) ^ (jsToString 10 n.natAbs).length) + n).toNat =
      10 ^ (jsToString 10 n.natAbs).length - n.natAbs := by
    rw [hcast]
    omega
  simp only [bigintToDBEntryKey, if_pos hneg, h1, hval, BIGINT_TAG_LEN, BIGINT_LEN_MODULUS]
  rw [zeroPad_jsToString 10 (by omega) 10 _ (by omega)
      (by have := jsToString_length_pos 10 (10 ^ 10 - (jsToString 10 n.natAbs).length) (by omega); omega)]
  rw [zeroPad_jsToString 10 (by omega) _ _ (by omega)
      (by have := jsToString_length_pos 10 (10 ^ (jsToString 10 n.natAbs).length - n.natAbs) (by omega); omega)]

theorem bigintEnc_nonneg (n : Int) (hpos : 0 ≤ n) (hlt : n.natAbs < 10 ^ 19) :
    bigintToDBEntryKey n =
      ('p' :: toPad 10 10 ((jsToString 10 n.toNat).length)) ++
        (':' :: toPad 10 ((jsToString 10 n.toNat).length) n.toNat) := by
  have hL1 : 1 ≤ (jsToString 10 n.toNat).length := jsToString_length_pos 10 _ (by omega)
  have hL19 : (jsToString 10 n.toNat).length ≤ 19 := len_le_19 n.toNat (by omega)
  have hnn : ¬(n < 0) := by omega
  simp only [bigintToDBEntryKey, if_neg hnn, BIGINT_TAG_LEN]
  rw [zeroPad_jsToString 10 (by omega) 10 _ (by omega)
      (by have := jsToString_length_pos 10 ((jsToString 10 n.toNat).length) (by omega); omega)]
  rw [jsToString_eq_toPad 10 (by omega) n.toNat]
  rw [toPad_length]

theorem np_toNat_lt : ('n').toNat < ('p').toNat := by decide

theorem bigintOrderAux (a b : Int) (hab : a < b)
    (ha : a.natAbs < 10 ^ 19) (hb : b.natAbs < 10 ^ 19) :
    strLtB (bigintToDBEntryKey a) (bigintToDBEntryKey b) = true := by
  by_cases hbneg : b < 0
  · have haneg : a < 0 := lt_trans hab hbneg
    have habs : b.natAbs < a.natAbs := by omega
    rw [bigintEnc_neg a haneg ha, bigintEnc_neg b hbneg hb]
    set La := (jsToString 10 a.natAbs).length with hLa
    set Lb := (jsToString 10 b.natAbs).length with hLb
    have hLa1 : 1 ≤ La := jsToString_length_pos 10 _ (by omega)
    have hLb1 : 1 ≤ Lb := jsToString_length_pos 10 _ (by omega)
    have hLa19 : La ≤ 19 := len_le_19 a.natAbs ha
    have hLb19 : Lb ≤ 19 := len_le_19 b.natAbs hb
    have haup : a.natAbs < 10 ^ La := natAbs_lt_pow_len a.natAbs
    have hbup : b.natAbs < 10 ^ Lb := natAbs_lt_pow_len b.natAbs
    have hba : Lb ≤ La := by
      rw [hLb]
      exact (jsToString_length_le_iff 10 (by omega) b.natAbs La (by omega)).mpr
        (lt_trans habs haup)
    rw [strLtB_append_congr _ _ _ _ (by simp [toPad_length])]
    rcases Nat.lt_or_ge Lb La with hlt | hge
    · have htag : strLtB (toPad 10 10 (BIGINT_LEN_MODULUS - La))
          (toPad 10 10 (BIGINT_LEN_MODULUS - Lb)) = true := by
        rw [toPad_lt_iff 10 (by omega) (by omega) 10 _ _
          (by unfold BIGINT_LEN_MODULUS BIGINT_TAG_LEN; omega)
          (by unfold BIGINT_LEN_MODULUS BIGINT_TAG_LEN; omega)]
        unfold BIGINT_LEN_MODULUS BIGINT_TAG_LEN
        omega
      have hne : ('n' :: toPad 10 10 (BIGINT_LEN_MODULUS - La)) ≠
          ('n' :: toPad 10 10 (BIGINT_LEN_MODULUS - Lb)) := by
        intro hc
        have h2 := List.tail_eq_of_cons_eq hc
        have := toPad_inj 10 (by omega) (by omega) 10 _ _
          (by unfold BIGINT_LEN_MODULUS BIGINT_TAG_LEN; omega)
          (by unfold BIGINT_LEN_MODULUS BIGINT_TAG_LEN; omega) h2
        unfold BIGINT_LEN_MODULUS BIGINT_TAG_LEN at this
        omega
      rw [if_neg hne, strLtB_cons_same, htag]
    · have hLeq : La = Lb := by omega
      rw [hLeq, if_pos rfl, strLtB_cons_same]
      rw [toPad_lt_iff 10 (by omega) (by omega) Lb _ _ (by omega) (by omega)]
      omega
  · by_cases haneg : a < 0
    · rw [bigintEnc_neg a haneg ha, bigintEnc_nonneg b (by omega) hb]
      rw [List.cons_append, List.cons_append]
      exact strLtB_cons_of_lt np_toNat_lt _ _
    · have hbpos : (0 : Int) ≤ b := by omega
      have hapos : (0 : Int) ≤ a := by omega
      rw [bigintEnc_nonneg a hapos ha, bigintEnc_nonneg b hbpos hb]
      set La := (jsToString 10 a.toNat).length with hLa
      set Lb := (jsToString 10 b.toNat).length with hLb
      have hLa1 : 1 ≤ La := jsToString_length_pos 10 _ (by omega)
      have hLb1 : 1 ≤ Lb := jsToString_length_pos 10 _ (by omega)
      have hLa19 : La ≤ 19 := len_le_19 a.toNat (by omega)
      have hLb19 : Lb ≤ 19 := len_le_19 b.toNat (by omega)
      have haup : a.toNat < 10 ^ La := natAbs_lt_pow_len a.toNat
      have hbup : b.toNat < 10 ^ Lb := natAbs_lt_pow_len b.toNat
      have hba : La ≤ Lb := by
        rw [hLa]
        exact (jsToString_length_le_iff 10 (by omega) a.toNat Lb (by omega)).mpr
          (by omega)
      rw [strLtB_append_congr _ _ _ _ (by simp [toPad_length])]
      rcases Nat.lt_or_ge La Lb with hlt | hge
      · have htag : strLtB (toPad 10 10 La) (toPad 10 10 Lb) = true := by
          rw [toPad_lt_iff 10 (by omega) (by omega) 10 _ _ (by omega) (by omega)]
          exact hlt
        have hne : ('p' :: toPad 10 10 La) ≠ ('p' :: toPad 10 10 Lb) := by
          intro hc
          have h2 := List.tail_eq_of_cons_eq hc
          have := toPad_inj 10 (by omega) (by omega) 10 _ _ (by omega) (by omega) h2
          omega
        rw [if_neg hne, strLtB_cons_same, htag]
      · have hLeq : La = Lb := by omega
        rw [hLeq, if_pos rfl, strLtB_cons_same]
        rw [toPad_lt_iff 10 (by omega) (by omega) Lb _ _ (by omega) (by omega)]
        omega

theorem storeGet_set_self (s : VatStore) (k : Str) (v : Row) :
    storeGet (storeSet s k v) k = some v := by
  induction s with
  | nil => simp [storeSet, storeGet]
  | cons kv rest ih =>
    by_cases h : kv.1 = k
    · simp [storeSet, storeGet, h]
    · simp [storeSet, storeGet, h, ih]

theorem storeGet_set_ne (s : VatStore) (k k' : Str) (v : Row) (h : k' ≠ k) :
    storeGet (storeSet s k v) k' = storeGet s k' := by
  have hkk : ¬(k = k') := fun hc => h hc.symm
  induction s with
  | nil => simp [storeSet, storeGet, hkk]
  | cons kv rest ih =>
    obtain ⟨k1, v1⟩ := kv
    by_cases h2 : k1 = k
    · have hne : ¬(k1 = k') := by rw [h2]; exact hkk
      simp [storeSet, storeGet, h2, hne, hkk]
    · simp only [storeSet, if_neg h2, storeGet]
      by_cases h3 : k1 = k'
      · simp [h3]
      · simp [h3, ih]

theorem countNonMeta_cons (cfg : Config) (k1 : Str) (v1 : Row) (rest : VatStore) :
    countNonMeta cfg ((k1, v1) :: rest) =
      (if isEntryRowKey cfg k1 = true then 1 else 0) + countNonMeta cfg rest := by
  unfold countNonMeta
  rw [List.filter_cons]
  by_cases h : isEntryRowKey cfg k1 = true
  · simp [h, Nat.add_comm]
  · simp [h]

theorem countNonMeta_set_present (cfg : Config) (s : VatStore) (k : Str) (v w : Row)
    (h : storeGet s k = some w) :
    countNonMeta cfg (storeSet s k v) = countNonMeta cfg s := by
  induction s with
  | nil => simp [storeGet] at h
  | cons kv rest ih =>
    obtain ⟨k1, v1⟩ := kv
    by_cases h2 : k1 = k
    · simp only [storeSet, if_pos h2]
      rw [countNonMeta_cons, countNonMeta_cons]
    · simp only [storeGet, if_neg h2] at h
      simp only [storeSet, if_neg h2]
      rw [countNonMeta_cons, countNonMeta_cons, ih h]

theorem countNonMeta_set_absent (cfg : Config) (s : VatStore) (k : Str) (v : Row)
    (h : storeGet s k = none) (hk : isEntryRowKey cfg k = true) :
    countNonMeta cfg (storeSet s k v) = countNonMeta cfg s + 1 := by
  induction s with
  | nil => simp [storeSet, countNonMeta, List.filter_cons, hk]
  | cons kv rest ih =>
    obtain ⟨k1, v1⟩ := kv
    by_cases h2 : k1 = k
    · simp [storeGet, h2] at h
    · simp only [storeGet, if_neg h2] at h
      simp only [storeSet, if_neg h2]
      rw [countNonMeta_cons, countNonMeta_cons, ih h]
      omega

theorem countNonMeta_set_meta (cfg : Config) (s : VatStore) (k : Str) (v : Row)
    (hk : isEntryRowKey cfg k = false) :
    countNonMeta cfg (storeSet s k v) = countNonMeta cfg s := by
  induction s with
  | nil => simp [storeSet, countNonMeta, List.filter_cons, hk]
  | cons kv rest ih =>
    obtain ⟨k1, v1⟩ := kv
    by_cases h2 : k1 = k
    · simp only [storeSet, if_pos h2]
      rw [countNonMeta_cons, countNonMeta_cons]
    · simp only [storeSet, if_neg h2]
      rw [countNonMeta_cons, countNonMeta_cons, ih]

theorem countNonMeta_delete_present (cfg : Config) (s : VatStore) (k : Str) (w : Row)
    (h : storeGet s k = some w) (hk : isEntryRowKey cfg k = true) :
    countNonMeta cfg (storeDelete s k) + 1 = countNonMeta cfg s := by
  induction s with
  | nil => simp [storeGet] at h
  | cons kv rest ih =>
    obtain ⟨k1, v1⟩ := kv
    by_cases h2 : k1 = k
    · simp only [storeDelete, if_pos h2]
      rw [countNonMeta_cons]
      rw [show isEntryRowKey cfg k1 = true from by rw [h2]; exact hk]
      simp [Nat.add_comm]
    · simp only [storeGet, if_neg h2] at h
      simp only [storeDelete, if_neg h2]
      rw [countNonMeta_cons, countNonMeta_cons]
      have := ih h
      omega

theorem countNonMeta_delete_meta (cfg : Config) (s : VatStore) (k : Str)
    (hk : isEntryRowKey cfg k = false) :
    countNonMeta cfg (storeDelete s k) = countNonMeta cfg s := by
  induction s with
  | nil => simp [storeDelete]
  | cons kv rest ih =>
    obtain ⟨k1, v1⟩ := kv
    by_cases h2 : k1 = k
    · simp only [storeDelete, if_pos h2]
      rw [countNonMeta_cons]
      rw [show isEntryRowKey cfg k1 = false from by rw [h2]; exact hk]
      simp
    · simp only [storeDelete, if_neg h2]
      rw [countNonMeta_cons, countNonMeta_cons, ih]

theorem strStarts_append (p s : Str) : strStarts p (p ++ s) = true := by
  induction p with
  | nil => rfl
  | cons c cs ih => simp [strStarts, ih]

theorem isEntryRowKey_pfx (cfg : Config) (e : Str) :
    isEntryRowKey cfg (pfxOf cfg e) = (!(e.headD '|' == '|')) := by
  unfold isEntryRowKey pfxOf
  rw [List.drop_left, strStarts_append]
  simp

theorem isEntryRowKey_meta (cfg : Config) (s : Str) :
    isEntryRowKey cfg (pfxOf cfg ('|' :: s)) = false := by
  rw [isEntryRowKey_pfx]
  simp

theorem encodeKey_entry (cfg : Config) (store : VatStore) (k : Key) (e : Str)
    (h : encodeKey cfg store k = .ok e) : isEntryRowKey cfg (pfxOf cfg e) = true := by
  rw [isEntryRowKey_pfx]
  cases k with
  | null => simp [encodeKey] at h; subst h; rfl
  | undef => simp [encodeKey] at h; subst h; rfl
  | num bits => simp [encodeKey] at h; subst h; rfl
  | str s => simp [encodeKey] at h; subst h; rfl
  | bool b =>
    simp [encodeKey] at h
    subst h
    cases b <;> rfl
  | bigint n =>
    simp [encodeKey] at h
    subst h
    by_cases hn : n < 0
    · unfold bigintToDBEntryKey
      rw [if_pos hn]
      rfl
    · unfold bigintToDBEntryKey
      rw [if_neg hn]
      rfl
  | remotable slot =>
    cases hs : storeGet store (ordinalKey cfg slot) with
    | none => simp [encodeKey, hs] at h
    | some r =>
      simp only [encodeKey, hs] at h
      simp at h
      subst h
      rfl
  | sym name => simp [encodeKey] at h; subst h; rfl

theorem keyToDBKey_entry (cfg : Config) (store : VatStore) (k : Key) (dbk : Str)
    (h : keyToDBKey cfg store k = .ok dbk) :
    isEntryRowKey cfg dbk = true := by
  unfold keyToDBKey at h
  cases he : encodeKey cfg store k with
  | ok e =>
    rw [he] at h
    simp at h
    subst h
    exact encodeKey_entry cfg store k e he
  | error er => rw [he] at h; exact absurd h (by simp)

theorem keyToDBKey_genOrd (cfg : Config) (store : VatStore) (slot : Str) :
    ∃ dbk, keyToDBKey cfg (generateOrdinal cfg store (.remotable slot)) (.remotable slot) = .ok dbk := by
  simp only [keyToDBKey, encodeKey, generateOrdinal, getSlotForVal]
  by_cases he : nextOrdinalKey cfg = ordinalKey cfg slot
  · rw [he, storeGet_set_self]
    exact ⟨_, rfl⟩
  · rw [storeGet_set_ne _ _ _ _ (fun hc => he hc.symm), storeGet_set_self]
    exact ⟨_, rfl⟩

theorem nextOrdinalKey_meta (cfg : Config) :
    isEntryRowKey cfg (nextOrdinalKey cfg) = false := by
  have he : ("|nextOrdinal".data : Str) = '|' :: ("nextOrdinal".data) := by decide
  unfold nextOrdinalKey
  rw [he]
  exact isEntryRowKey_meta cfg _

theorem ordinalKey_meta (cfg : Config) (s : Str) :
    isEntryRowKey cfg (ordinalKey cfg s) = false := by
  unfold ordinalKey
  exact isEntryRowKey_meta cfg _

theorem generateOrdinal_count (cfg : Config) (store : VatStore) (k : Key) :
    countNonMeta cfg (generateOrdinal cfg store k) = countNonMeta cfg store := by
  unfold generateOrdinal
  rw [countNonMeta_set_meta cfg _ _ _ (nextOrdinalKey_meta cfg)]
  rw [countNonMeta_set_meta cfg _ _ _ (ordinalKey_meta cfg _)]

theorem set_gen_size (cfg : Config) (st : St) (k : Key) (v : SerVal) :
    (set cfg st k v).2.gen = st.gen ∧ (set cfg st k v).2.size = st.size := by
  unfold set
  cases hs : cfg.schema k with
  | false => simp [hs]
  | true =>
    simp only [hs, Bool.not_true, Bool.false_eq_true, if_false]
    cases hdbk : keyToDBKey cfg st.store k with
    | error e => simp [hdbk]
    | ok dbk =>
      simp only [hdbk]
      cases hrow : storeGet st.store dbk with
      | none => simp [hrow]
      | some r =>
        cases r with
        | raw s => simp [hrow]
        | ser before => simp [hrow]

theorem set_sizeInv (cfg : Config) (st : St) (k : Key) (v : SerVal)
    (hinv : sizeInv cfg st) : sizeInv cfg (set cfg st k v).2 := by
  unfold set
  cases hs : cfg.schema k with
  | false => simpa [hs] using hinv
  | true =>
    simp only [hs, Bool.not_true, Bool.false_eq_true, if_false]
    cases hdbk : keyToDBKey cfg st.store k with
    | error e => simpa [hdbk] using hinv
    | ok dbk =>
      simp only [hdbk]
      cases hrow : storeGet st.store dbk with
      | none => simpa [hrow] using hinv
      | some r =>
        cases r with
        | raw s => simpa [hrow] using hinv
        | ser before =>
          simp only [hrow]
          unfold sizeInv at hinv ⊢
          simp only
          rw [countNonMeta_set_present cfg _ _ _ _ hrow]
          exact hinv

theorem deleteInternal_gen (cfg : Config) (st : St) (k : Key) :
    (deleteInternal cfg st k).2.gen = st.gen := by
  unfold deleteInternal
  cases hs : cfg.schema k with
  | false => simp [hs]
  | true =>
    simp only [hs, Bool.not_true, Bool.false_eq_true, if_false]
    cases hdbk : keyToDBKey cfg st.store k with
    | error e => simp [hdbk]
    | ok dbk =>
      simp only [hdbk]
      cases hrow : storeGet st.store dbk with
      | none => simp [hrow]
      | some r =>
        cases r with
        | raw s => simp [hrow]
        | ser value =>
          simp only [hrow]
          cases k <;> simp [apply_ite St.gen]

theorem deleteInternal_fail_state (cfg : Config) (st : St) (k : Key) (e : Err)
    (h : (deleteInternal cfg st k).1 = .error e) : (deleteInternal cfg st k).2 = st := by
  unfold deleteInternal at h ⊢
  cases hs : cfg.schema k with
  | false => simp [hs]
  | true =>
    simp only [hs, Bool.not_true, Bool.false_eq_true, if_false] at h ⊢
    cases hdbk : keyToDBKey cfg st.store k with
    | error e2 => simp [hdbk]
    | ok dbk =>
      simp only [hdbk] at h ⊢
      cases hrow : storeGet st.store dbk with
      | none => simp [hrow]
      | some r =>
        cases r with
        | raw s => simp [hrow]
        | ser value => simp [hrow] at h

theorem deleteInternal_sizeInv (cfg : Config) (st : St) (k : Key)
    (hinv : sizeInv cfg st) : sizeInv cfg (deleteInternal cfg st k).2 := by
  unfold deleteInternal
  cases hs : cfg.schema k with
  | false => simpa [hs] using hinv
  | true =>
    simp only [hs, Bool.not_true, Bool.false_eq_true, if_false]
    cases hdbk : keyToDBKey cfg st.store k with
    | error e => simpa [hdbk] using hinv
    | ok dbk =>
      simp only [hdbk]
      cases hrow : storeGet st.store dbk with
      | none => simpa [hrow] using hinv
      | some r =>
        cases r with
        | raw s => simpa [hrow] using hinv
        | ser value =>
          simp only [hrow]
          have hentry : isEntryRowKey cfg dbk = true := keyToDBKey_entry cfg st.store k dbk hdbk
          have hcount := countNonMeta_delete_present cfg st.store dbk _ hrow hentry
          unfold sizeInv at hinv ⊢
          cases k with
          | remotable slot =>
            simp only [apply_ite St.store, apply_ite St.size]
            cases hw : cfg.hasWeakKeys <;>
              (simp only [Bool.false_eq_true, if_false, if_true, reduceIte]
               rw [countNonMeta_delete_meta cfg _ _ (ordinalKey_meta cfg slot)]
               omega)
          | null => simp only; omega
          | undef => simp only; omega
          | num bits => simp only; omega
          | str s => simp only; omega
          | bool b => simp only; omega
          | bigint n => simp only; omega
          | sym name => simp only; omega

theorem del_gen (cfg : Config) (st : St) (k : Key) :
    (del cfg st k).2.gen = st.gen + 1 := by
  unfold del
  rw [deleteInternal_gen]

theorem del_fail_state (cfg : Config) (st : St) (k : Key) (e : Err)
    (h : (del cfg st k).1 = .error e) :
    (del cfg st k).2 = { st with gen := st.gen + 1 } := by
  unfold del at h ⊢
  exact deleteInternal_fail_state cfg _ k e h

theorem del_sizeInv (cfg : Config) (st : St) (k : Key)
    (hinv : sizeInv cfg st) : sizeInv cfg (del cfg st k).2 := by
  unfold del
  exact deleteInternal_sizeInv cfg _ k hinv

theorem storeGet_genOrd_entry (cfg : Config) (store : VatStore) (k : Key) (dbk : Str)
    (hdbk : isEntryRowKey cfg dbk = true) :
    storeGet (generateOrdinal cfg store k) dbk = storeGet store dbk := by
  unfold generateOrdinal
  rw [storeGet_set_ne _ _ _ _ (by
    intro hc
    rw [hc, nextOrdinalKey_meta] at hdbk
    exact Bool.false_ne_true hdbk)]
  rw [storeGet_set_ne _ _ _ _ (by
    intro hc
    rw [hc, ordinalKey_meta] at hdbk
    exact Bool.false_ne_true hdbk)]

theorem init_fail_state (cfg : Config) (st : St) (k : Key) (v : SerVal) (e : Err)
    (h : (init cfg st k v).1 = .error e) : (init cfg st k v).2 = st := by
  unfold init at h ⊢
  cases hs : cfg.schema k with
  | false => simp [hs]
  | true =>
    simp only [hs, Bool.not_true, Bool.false_eq_true, if_false] at h ⊢
    cases hh : has cfg st.store k with
    | true => simp [hh]
    | false =>
      simp only [hh, Bool.false_eq_true, if_false] at h ⊢
      cases k with
      | remotable slot =>
        obtain ⟨dbk, hdbk⟩ := keyToDBKey_genOrd cfg st.store slot
        simp [hdbk, apply_ite St.store, apply_ite St.log] at h
      | null => simp [keyToDBKey, encodeKey] at h
      | undef => simp [keyToDBKey, encodeKey] at h
      | num bits => simp [keyToDBKey, encodeKey] at h
      | str s => simp [keyToDBKey, encodeKey] at h
      | bool b => simp [keyToDBKey, encodeKey] at h
      | bigint n => simp [keyToDBKey, encodeKey] at h
      | sym name => simp [keyToDBKey, encodeKey] at h

theorem init_ok_gen (cfg : Config) (st : St) (k : Key) (v : SerVal)
    (h : (init cfg st k v).1 = .ok ()) : (init cfg st k v).2.gen = st.gen + 1 := by
  unfold init at h ⊢
  cases hs : cfg.schema k with
  | false => simp [hs] at h
  | true =>
    simp only [hs, Bool.not_true, Bool.false_eq_true, if_false] at h ⊢
    cases hh : has cfg st.store k with
    | true => simp [hh] at h
    | false =>
      simp only [hh, Bool.false_eq_true, if_false] at h ⊢
      cases k with
      | remotable slot =>
        obtain ⟨dbk, hdbk⟩ := keyToDBKey_genOrd cfg st.store slot
        simp [hdbk, apply_ite St.store, apply_ite St.log, apply_ite St.gen]
      | null => simp [keyToDBKey, encodeKey]
      | undef => simp [keyToDBKey, encodeKey]
      | num bits => simp [keyToDBKey, encodeKey]
      | str s => simp [keyToDBKey, encodeKey]
      | bool b => simp [keyToDBKey, encodeKey]
      | bigint n => simp [keyToDBKey, encodeKey]
      | sym name => simp [keyToDBKey, encodeKey]

theorem init_sizeInv (cfg : Config) (st : St) (k : Key) (v : SerVal)
    (hinv : sizeInv cfg st)
    (hfresh : ∀ dbk, initWriteKey cfg st.store k = some dbk → storeGet st.store dbk = none) :
    sizeInv cfg (init cfg st k v).2 := by
  unfold init
  cases hs : cfg.schema k with
  | false => simpa [hs] using hinv
  | true =>
    simp only [hs, Bool.not_true, Bool.false_eq_true, if_false]
    cases hh : has cfg st.store k with
    | true => simpa using hinv
    | false =>
      simp only [Bool.false_eq_true, if_false]
      cases k with
      | remotable slot =>
        obtain ⟨dbk, hdbk⟩ := keyToDBKey_genOrd cfg st.store slot
        have hentry := keyToDBKey_entry cfg _ _ dbk hdbk
        have habs : storeGet st.store dbk = none :=
          hfresh dbk (by simp [initWriteKey, hdbk, Except.toOption])
        have habs2 : storeGet (generateOrdinal cfg st.store (Key.remotable slot)) dbk = none := by
          rw [storeGet_genOrd_entry cfg _ _ dbk hentry]
          exact habs
        have hcnt := countNonMeta_set_absent cfg _ dbk (Row.ser v) habs2 hentry
        unfold sizeInv at hinv ⊢
        simp [hdbk, apply_ite St.store, apply_ite St.log, apply_ite St.size, hcnt,
          generateOrdinal_count]
        omega
      | null =>
        obtain ⟨dbk, hdbk⟩ : ∃ dbk, keyToDBKey cfg st.store (Key.null) = Except.ok dbk := ⟨_, rfl⟩
        have hentry := keyToDBKey_entry cfg st.store _ dbk hdbk
        have habs : storeGet st.store dbk = none :=
          hfresh dbk (by simp [initWriteKey, hdbk, Except.toOption])
        have hcnt := countNonMeta_set_absent cfg st.store dbk (Row.ser v) habs hentry
        unfold sizeInv at hinv ⊢
        simp [hdbk, hcnt]
        omega
      | undef =>
        obtain ⟨dbk, hdbk⟩ : ∃ dbk, keyToDBKey cfg st.store (Key.undef) = Except.ok dbk := ⟨_, rfl⟩
        have hentry := keyToDBKey_entry cfg st.store _ dbk hdbk
        have habs : storeGet st.store dbk = none :=
          hfresh dbk (by simp [initWriteKey, hdbk, Except.toOption])
        have hcnt := countNonMeta_set_absent cfg st.store dbk (Row.ser v) habs hentry
        unfold sizeInv at hinv ⊢
        simp [hdbk, hcnt]
        omega
      | num bits =>
        obtain ⟨dbk, hdbk⟩ : ∃ dbk, keyToDBKey cfg st.store (Key.num bits) = Except.ok dbk := ⟨_, rfl⟩
        have hentry := keyToDBKey_entry cfg st.store _ dbk hdbk
        have habs : storeGet st.store dbk = none :=
          hfresh dbk (by simp [initWriteKey, hdbk, Except.toOption])
        have hcnt := countNonMeta_set_absent cfg st.store dbk (Row.ser v) habs hentry
        unfold sizeInv at hinv ⊢
        simp [hdbk, hcnt]
        omega
      | str s =>
        obtain ⟨dbk, hdbk⟩ : ∃ dbk, keyToDBKey cfg st.store (Key.str s) = Except.ok dbk := ⟨_, rfl⟩
        have hentry := keyToDBKey_entry cfg st.store _ dbk hdbk
        have habs : storeGet st.store dbk = none :=
          hfresh dbk (by simp [initWriteKey, hdbk, Except.toOption])
        have hcnt := countNonMeta_set_absent cfg st.store dbk (Row.ser v) habs hentry
        unfold sizeInv at hinv ⊢
        simp [hdbk, hcnt]
        omega
      | bool b =>
        obtain ⟨dbk, hdbk⟩ : ∃ dbk, keyToDBKey cfg st.store (Key.bool b) = Except.ok dbk := ⟨_, rfl⟩
        have hentry := keyToDBKey_entry cfg st.store _ dbk hdbk
        have habs : storeGet st.store dbk = none :=
          hfresh dbk (by simp [initWriteKey, hdbk, Except.toOption])
        have hcnt := countNonMeta_set_absent cfg st.store dbk (Row.ser v) habs hentry
        unfold sizeInv at hinv ⊢
        simp [hdbk, hcnt]
        omega
      | bigint n =>
        obtain ⟨dbk, hdbk⟩ : ∃ dbk, keyToDBKey cfg st.store (Key.bigint n) = Except.ok dbk := ⟨_, rfl⟩
        have hentry := keyToDBKey_entry cfg st.store _ dbk hdbk
        have habs : storeGet st.store dbk = none :=
          hfresh dbk (by simp [initWriteKey, hdbk, Except.toOption])
        have hcnt := countNonMeta_set_absent cfg st.store dbk (Row.ser v) habs hentry
        unfold sizeInv at hinv ⊢
        simp [hdbk, hcnt]
        omega
      | sym name =>
        obtain ⟨dbk, hdbk⟩ : ∃ dbk, keyToDBKey cfg st.store (Key.sym name) = Except.ok dbk := ⟨_, rfl⟩
        have hentry := keyToDBKey_entry cfg st.store _ dbk hdbk
        have habs : storeGet st.store dbk = none :=
          hfresh dbk (by simp [initWriteKey, hdbk, Except.toOption])
        have hcnt := countNonMeta_set_absent cfg st.store dbk (Row.ser v) habs hentry
        unfold sizeInv at hinv ⊢
        simp [hdbk, hcnt]
        omega

theorem dbKeyToKey_err (cfg : Config) (dbKey : Str) (e : Err)
    (h : dbKeyToKey cfg dbKey = .error e) : e = .decodeCorruption := by
  unfold dbKeyToKey at h
  cases hd : dbKey.drop cfg.dbKeyPfx.length with
  | nil =>
    rw [hd] at h
    simp at h
    exact h.symm
  | cons c rest =>
    simp only [hd] at h
    by_cases h0 : c = 'z'
    · rw [if_pos h0] at h
      exact absurd h (by simp)
    · rw [if_neg h0] at h
      by_cases h1 : c = 'u'
      · rw [if_pos h1] at h
        exact absurd h (by simp)
      · rw [if_neg h1] at h
        by_cases h2 : c = 'f'
        · rw [if_pos h2] at h
          exact absurd h (by simp)
        · rw [if_neg h2] at h
          by_cases h3 : c = 's'
          · rw [if_pos h3] at h
            exact absurd h (by simp)
          · rw [if_neg h3] at h
            by_cases h4 : c = 'b'
            · rw [if_pos h4] at h
              exact absurd h (by simp)
            · rw [if_neg h4] at h
              by_cases h5 : c = 'n'
              · rw [if_pos h5] at h
                exact absurd h (by simp)
              · rw [if_neg h5] at h
                by_cases h6 : c = 'p'
                · rw [if_pos h6] at h
                  exact absurd h (by simp)
                · rw [if_neg h6] at h
                  by_cases h7 : c = 'r'
                  · rw [if_pos h7] at h
                    exact absurd h (by simp)
                  · rw [if_neg h7] at h
                    by_cases h8 : c = 'y'
                    · rw [if_pos h8] at h
                      exact absurd h (by simp)
                    · rw [if_neg h8] at h
                      simp at h
                      exact h.symm

theorem iterStep_gen_ne (cfg : Config) (keyPatt : Key → Bool) (valuePatt : SerVal → Bool)
    (ignoreVals : Bool) (sB eB : Str) (it : IterState) (st : St)
    (h : it.genAtStart ≠ st.gen) :
    iterStep cfg keyPatt valuePatt ignoreVals sB eB it st = .error .concurrentModification := by
  unfold iterStep
  rw [if_pos h]

theorem iterStep_no_CM (cfg : Config) (keyPatt : Key → Bool) (valuePatt : SerVal → Bool)
    (ignoreVals : Bool) (sB eB : Str) (it : IterState) (st : St)
    (h : it.genAtStart = st.gen) :
    iterStep cfg keyPatt valuePatt ignoreVals sB eB it st ≠ .error .concurrentModification := by
  unfold iterStep
  rw [if_neg (by simp [h])]
  cases hga : getAfter st.store it.priorDBKey sB eB with
  | none => simp
  | some kv =>
    obtain ⟨dbKey, dbValue⟩ := kv
    simp only
    by_cases hend : strLtB dbKey eB = true
    · simp only [hend, if_true]
      cases hdec : dbKeyToKey cfg dbKey with
      | error e2 =>
        have he2 := dbKeyToKey_err cfg dbKey e2 hdec
        simp [he2]
      | ok key =>
        cases hkp : keyPatt key with
        | false => simp [hkp]
        | true =>
          simp only [hkp, if_true]
          cases ignoreVals with
          | true => simp
          | false =>
            simp only [Bool.false_eq_true, if_false]
            cases dbValue with
            | raw s => simp
            | ser vv =>
              cases hvp : valuePatt vv with
              | false => simp [hvp]
              | true => simp [hvp]
    · simp [hend]

theorem clearLoop_gen (cfg : Config) (keyPatt : Key → Bool) (valuePatt : SerVal → Bool)
    (ignoreVals : Bool) (sB eB : Str) :
    ∀ fuel it st, (clearLoop cfg keyPatt valuePatt ignoreVals sB eB fuel it st).2.gen = st.gen := by
  intro fuel
  induction fuel with
  | zero => intro it st; rfl
  | succ fuel ih =>
    intro it st
    unfold clearLoop
    cases hstep : iterStep cfg keyPatt valuePatt ignoreVals sB eB it st with
    | error e => simp
    | ok res =>
      cases res with
      | done => simp
      | skip it1 => simp [ih]
      | yield k vv it1 =>
        simp only
        have hdg := deleteInternal_gen cfg st k
        cases hdel : deleteInternal cfg st k with
        | mk r st1 =>
          rw [hdel] at hdg
          simp only at hdg
          try simp only [hdel]
          cases r with
          | ok u => simp [ih, hdg]
          | error e => simp [hdg]

theorem clearLoop_sizeInv (cfg : Config) (keyPatt : Key → Bool) (valuePatt : SerVal → Bool)
    (ignoreVals : Bool) (sB eB : Str) :
    ∀ fuel it st, sizeInv cfg st →
      sizeInv cfg (clearLoop cfg keyPatt valuePatt ignoreVals sB eB fuel it st).2 := by
  intro fuel
  induction fuel with
  | zero => intro it st hinv; exact hinv
  | succ fuel ih =>
    intro it st hinv
    unfold clearLoop
    cases hstep : iterStep cfg keyPatt valuePatt ignoreVals sB eB it st with
    | error e => simpa using hinv
    | ok res =>
      cases res with
      | done => simpa using hinv
      | skip it1 => simpa using ih it1 st hinv
      | yield k vv it1 =>
        simp only
        have hds := deleteInternal_sizeInv cfg st k hinv
        cases hdel : deleteInternal cfg st k with
        | mk r st1 =>
          rw [hdel] at hds
          simp only at hds
          try simp only [hdel]
          cases r with
          | ok u => simpa using ih it1 st1 hds
          | error e => simpa using hds

theorem clear_ok_gen (cfg : Config) (keyPatt : Key → Bool) (valuePatt : SerVal → Bool)
    (ignoreVals : Bool) (coverStart coverEnd : Str) (fuel : Nat) (st : St)
    (h : (clear cfg keyPatt valuePatt ignoreVals coverStart coverEnd fuel st).1 = .ok ()) :
    (clear cfg keyPatt valuePatt ignoreVals coverStart coverEnd fuel st).2.gen = st.gen + 1 := by
  unfold clear at h ⊢
  have hg := clearLoop_gen cfg keyPatt valuePatt ignoreVals (pfxOf cfg coverStart)
    (pfxOf cfg coverEnd) fuel { genAtStart := st.gen, priorDBKey := [] } st
  cases hloop : clearLoop cfg keyPatt valuePatt ignoreVals (pfxOf cfg coverStart)
      (pfxOf cfg coverEnd) fuel { genAtStart := st.gen, priorDBKey := [] } st with
  | mk r st1 =>
    rw [hloop] at hg h
    cases r with
    | ok u => simpa using hg
    | error e => simp at h

theorem clear_sizeInv (cfg : Config) (keyPatt : Key → Bool) (valuePatt : SerVal → Bool)
    (ignoreVals : Bool) (coverStart coverEnd : Str) (fuel : Nat) (st : St)
    (hinv : sizeInv cfg st) :
    sizeInv cfg (clear cfg keyPatt valuePatt ignoreVals coverStart coverEnd fuel st).2 := by
  unfold clear
  have hs := clearLoop_sizeInv cfg keyPatt valuePatt ignoreVals (pfxOf cfg coverStart)
    (pfxOf cfg coverEnd) fuel { genAtStart := st.gen, priorDBKey := [] } st hinv
  cases hloop : clearLoop cfg keyPatt valuePatt ignoreVals (pfxOf cfg coverStart)
      (pfxOf cfg coverEnd) fuel { genAtStart := st.gen, priorDBKey := [] } st with
  | mk r st1 =>
    rw [hloop] at hs
    cases r with
    | ok u =>
      unfold sizeInv at hs ⊢
      simpa using hs
    | error e => simpa using hs

/-- Claim C1 (code bug): the round-trip `decode(encode(k)) = k` fails for
negative finite doubles.  `dbEntryKeyToNumber` tests `k[0] < '8'`, but `k[0]`
is the constant tag `f`, so decoding always XORs only the sign bit: decoding
the encoding of `-1.0` (pattern `0xbff0000000000000`) gives the pattern
`0xc00fffffffffffff` (about `-3.99`), not `-1.0`. -/
theorem claimC1_numberRoundTripBug :
    dbEntryKeyToNumber (numberToDBEntryKey 0xbff0000000000000) = 0xc00fffffffffffff
    ∧ numberToDBEntryKey 0xbff0000000000000 = ("f400fffffffffffff".data)
    ∧ (0xc00fffffffffffff : Nat) ≠ 0xbff0000000000000 := by decide

/-- Claim C2 (code bug): `reanimateCollection` passes `(subid, label, …)` to
`summonCollection(label, collectionID, …)`, so a collection made with
collection ID 1 and label `L` reanimates with db key prefix `vc.L.` instead
of `vc.1.`: the reanimated handle does not share the original's rows (`has`
returns false for a key the original holds). -/
theorem claimC2_reanimateDivergence :
    mkDemo.1 = ("o+5/1".data)
    ∧ cfgDemo.dbKeyPfx = ("vc.1.".data)
    ∧ (reanDemo.map Config.dbKeyPfx) = some ("vc.L.".data)
    ∧ has cfgDemo stDemo.store (.str ("k".data)) = true
    ∧ (reanDemo.map (fun c => has c stDemo.store (.str ("k".data)))) = some false := by
  refine ⟨by decide, by decide, by decide, by decide, by decide⟩

/-- Claim C5 (code bug): `generateOrdinal` has no overflow check.  With
`|nextOrdinal` at `9999999999` (= 10^10 - 1) it assigns that ordinal and
persists `|nextOrdinal = 10000000000 > 10^10 - 1` without any error, and
`zeroPad` then truncates the 11-digit ordinal to `0000000000` in encoded
keys. -/
theorem claimC5_ordinalOverflowUnchecked :
    storeGet (generateOrdinal cfgOrd stoOrd (.remotable ("o-1".data))) (nextOrdinalKey cfgOrd)
        = some (.raw ("10000000000".data))
    ∧ storeGet (generateOrdinal cfgOrd stoOrd (.remotable ("o-1".data)))
        (ordinalKey cfgOrd ("o-1".data)) = some (.raw ("9999999999".data))
    ∧ zeroPad ("10000000000".data) BIGINT_TAG_LEN = ("0000000000".data) := by
  refine ⟨by decide, by decide, by decide⟩

/-- Claim C3 (amended): number key encoding preserves the IEEE-754 total
order (rank convention, NaN after all finite values) on every pair of valid
double patterns except `-0`: the encoded strings compare lexicographically
exactly as the sign-magnitude readings of the patterns compare.  (`-0` is
excluded: it does not encode like `+0` — see the counterexample.) -/
theorem claimC3_numberOrderAmended (a b : Nat) (ha : validNum a) (hb : validNum b)
    (ha0 : a ≠ H64) (hb0 : b ≠ H64) :
    (strLtB (numberToDBEntryKey a) (numberToDBEntryKey b) = true ↔ sgnMag a < sgnMag b) := by
  rw [numberToDBEntryKey_eq_toPad a ha, numberToDBEntryKey_eq_toPad b hb, strLtB_cons_same]
  rw [toPad_lt_iff 16 (by omega) (by omega) 16 _ _
    (by rw [sixteen_pow]; exact numXform_lt a ha)
    (by rw [sixteen_pow]; exact numXform_lt b hb)]
  rw [numXform_eq a ha ha0, numXform_eq b hb hb0]
  unfold sgnMag
  obtain ⟨h64a, _⟩ := ha
  obtain ⟨h64b, _⟩ := hb
  unfold M64 H64 at *
  split_ifs <;> omega

/-- Claim C3 witness: the amended order theorem applied at the patterns of
`1.0` and `2.0`. -/
theorem claimC3_witness :
    validNum 0x3ff0000000000000 ∧ validNum 0x4000000000000000
    ∧ (0x3ff0000000000000 : Nat) ≠ H64 ∧ (0x4000000000000000 : Nat) ≠ H64
    ∧ (strLtB (numberToDBEntryKey 0x3ff0000000000000) (numberToDBEntryKey 0x4000000000000000)
          = true ↔ sgnMag 0x3ff0000000000000 < sgnMag 0x4000000000000000) :=
  ⟨by decide, by decide, by decide, by decide,
    claimC3_numberOrderAmended 0x3ff0000000000000 0x4000000000000000
      (by decide) (by decide) (by decide) (by decide)⟩

/-- Claim C3 counterexample: `encode(-0) ≠ encode(0)` (the claim asserts they
are equal), and `-0` in fact sorts before `-∞`; the corrected concrete chain
is `encode(-0) < encode(-∞) < encode(-1) < encode(0) < encode(1) <
encode(+∞) < encode(NaN)`. -/
theorem claimC3_counterexample :
    numberToDBEntryKey H64 ≠ numberToDBEntryKey 0
    ∧ numberToDBEntryKey H64 = ("f0000000000000000".data)
    ∧ numberToDBEntryKey 0 = ("f8000000000000000".data)
    ∧ strLtB (numberToDBEntryKey H64) (numberToDBEntryKey 0xfff0000000000000) = true
    ∧ strLtB (numberToDBEntryKey 0xfff0000000000000) (numberToDBEntryKey 0xbff0000000000000) = true
    ∧ strLtB (numberToDBEntryKey 0xbff0000000000000) (numberToDBEntryKey 0) = true
    ∧ strLtB (numberToDBEntryKey 0) (numberToDBEntryKey 0x3ff0000000000000) = true
    ∧ strLtB (numberToDBEntryKey 0x3ff0000000000000) (numberToDBEntryKey 0x7ff0000000000000) = true
    ∧ strLtB (numberToDBEntryKey 0x7ff0000000000000) (numberToDBEntryKey NANC) = true := by
  refine ⟨by decide, by decide, by decide, by decide, by decide, by decide, by decide, by decide,
    by decide⟩

/-- Claim C4 (amended): bigint key encoding preserves numeric order for all
bigints of magnitude below `10^19` (19 decimal digits), across signs.  Beyond
that, `zeroPad`'s fixed 18-zero pad cannot pad the negative digit field to
the full length and the order can break — see the counterexample. -/
theorem claimC4_bigintOrderAmended (a b : Int) (hab : a < b)
    (ha : a.natAbs < 10 ^ 19) (hb : b.natAbs < 10 ^ 19) :
    strLtB (bigintToDBEntryKey a) (bigintToDBEntryKey b) = true :=
  bigintOrderAux a b hab ha hb

/-- Claim C4 witness: the amended order theorem applied at `-5 < 3`. -/
theorem claimC4_witness :
    ((-5 : Int) < 3) ∧ ((-5 : Int).natAbs < 10 ^ 19) ∧ ((3 : Int).natAbs < 10 ^ 19)
    ∧ strLtB (bigintToDBEntryKey (-5)) (bigintToDBEntryKey 3) = true :=
  ⟨by decide, by decide, by decide,
    claimC4_bigintOrderAmended (-5) 3 (by decide) (by decide) (by decide)⟩

/-- Claim C4 counterexample: `a = -(10^20 - 2) < b = -(10^20 - 10)`, yet
`encode(b) < encode(a)` lexicographically: `zeroPad` can prepend at most 18
zeros, so the digit field of `a` (19 characters) is shorter than that of `b`
(20 characters) and the comparison inverts. -/
theorem claimC4_counterexample :
    ((-(10 ^ 20 - 2) : Int) < -(10 ^ 20 - 10))
    ∧ strLtB (bigintToDBEntryKey (-(10 ^ 20 - 2))) (bigintToDBEntryKey (-(10 ^ 20 - 10))) = false
    ∧ strLtB (bigintToDBEntryKey (-(10 ^ 20 - 10))) (bigintToDBEntryKey (-(10 ^ 20 - 2))) = true := by
  refine ⟨by decide, by decide, by decide⟩

/-- Claim C6: a successful `init`, any `delete`, or a successful `clear`
performed between two `next` invocations of an open iterator makes the
iterator's next step fail with `ConcurrentModification`, whereas `set`
leaves the generation counter unchanged and never causes
`ConcurrentModification`. -/
theorem claimC6_generationGuard (cfg : Config) (st : St) (k1 kd k2 : Key) (v1 v2 : SerVal)
    (keyPatt : Key → Bool) (valuePatt : SerVal → Bool) (ignoreVals : Bool)
    (coverStart coverEnd sB eB : Str) (fuel : Nat) (it : IterState)
    (hit : it.genAtStart = st.gen)
    (hinit : (init cfg st k1 v1).1 = .ok ())
    (hclear : (clear cfg keyPatt valuePatt ignoreVals coverStart coverEnd fuel st).1 = .ok ()) :
    iterStep cfg keyPatt valuePatt ignoreVals sB eB it (init cfg st k1 v1).2
        = .error .concurrentModification
    ∧ iterStep cfg keyPatt valuePatt ignoreVals sB eB it (del cfg st kd).2
        = .error .concurrentModification
    ∧ iterStep cfg keyPatt valuePatt ignoreVals sB eB it
        (clear cfg keyPatt valuePatt ignoreVals coverStart coverEnd fuel st).2
        = .error .concurrentModification
    ∧ (set cfg st k2 v2).2.gen = st.gen
    ∧ iterStep cfg keyPatt valuePatt ignoreVals sB eB it (set cfg st k2 v2).2
        ≠ .error .concurrentModification := by
  refine ⟨?_, ?_, ?_, ?_, ?_⟩
  · exact iterStep_gen_ne _ _ _ _ _ _ _ _
      (by rw [hit, init_ok_gen cfg st k1 v1 hinit]; omega)
  · exact iterStep_gen_ne _ _ _ _ _ _ _ _
      (by rw [hit, del_gen]; omega)
  · exact iterStep_gen_ne _ _ _ _ _ _ _ _
      (by rw [hit, clear_ok_gen cfg keyPatt valuePatt ignoreVals coverStart coverEnd fuel st hclear]; omega)
  · exact (set_gen_size cfg st k2 v2).1
  · exact iterStep_no_CM _ _ _ _ _ _ _ _
      (by rw [hit, (set_gen_size cfg st k2 v2).1])

/-- Claim C7: for a key that fails the collection's key schema, `has`
returns `false` without error while `get`, `init`, `set` and `delete` each
fail with `SchemaViolation`. -/
theorem claimC7_schemaViolation (cfg : Config) (st : St) (k : Key) (v : SerVal)
    (hk : cfg.schema k = false) :
    has cfg st.store k = false
    ∧ get cfg st.store k = .error .schemaViolation
    ∧ (init cfg st k v).1 = .error .schemaViolation
    ∧ (set cfg st k v).1 = .error .schemaViolation
    ∧ (del cfg st k).1 = .error .schemaViolation := by
  refine ⟨?_, ?_, ?_, ?_, ?_⟩ <;> simp [has, get, init, set, del, deleteInternal, hk]

/-- Claim C8 (amended): the size invariant — the in-memory `size` equals
the number of non-metadata rows under the collection's prefix — is preserved
by `init` (given that the row being written is fresh, as it is in any
well-formed store), and unconditionally by `set`, `delete` and `clear`.
`entryDeleter` does NOT preserve it — see the counterexample. -/
theorem claimC8_sizeInvariantAmended (cfg : Config) (st : St) (k kd ks : Key) (v vs : SerVal)
    (keyPatt : Key → Bool) (valuePatt : SerVal → Bool) (ignoreVals : Bool)
    (coverStart coverEnd : Str) (fuel : Nat)
    (hinv : sizeInv cfg st)
    (hfresh : ∀ dbk, initWriteKey cfg st.store k = some dbk → storeGet st.store dbk = none) :
    sizeInv cfg (init cfg st k v).2
    ∧ sizeInv cfg (set cfg st ks vs).2
    ∧ sizeInv cfg (del cfg st kd).2
    ∧ sizeInv cfg (clear cfg keyPatt valuePatt ignoreVals coverStart coverEnd fuel st).2 :=
  ⟨init_sizeInv cfg st k v hinv hfresh, set_sizeInv cfg st ks vs hinv,
    del_sizeInv cfg st kd hinv,
    clear_sizeInv cfg keyPatt valuePatt ignoreVals coverStart coverEnd fuel st hinv⟩

/-- Claim C8 counterexample: `entryDeleter` deletes the entry row and the
ordinal row but never decrements `size`, so a state satisfying the size
invariant stops satisfying it after the reclamation callback runs. -/
theorem claimC8_counterexample :
    sizeInv cfgW stW
    ∧ ¬ sizeInv cfgW { stW with store := entryDeleter cfgW stW.store ("o-1".data) }
    ∧ storeGet (entryDeleter cfgW stW.store ("o-1".data)) (ordinalKey cfgW ("o-1".data)) = none
    ∧ storeGet (entryDeleter cfgW stW.store ("o-1".data))
        (pfxOf cfgW (("r0000000001:".data) ++ ("o-1".data))) = none := by
  refine ⟨by decide, by decide, by decide, by decide⟩

/-- Claim C9: `init` is atomic on failure: if it fails (schema violation or
key already present), the vat store, the size counter, the generation
counter and the log of reference-manager calls are all left exactly as they
were. -/
theorem claimC9_initAtomic (cfg : Config) (st : St) (k : Key) (v : SerVal) (e : Err)
    (h : (init cfg st k v).1 = .error e) : (init cfg st k v).2 = st :=
  init_fail_state cfg st k v e h

/-- Claim C10: the public `delete` bumps the generation counter before
validating, so a failing `delete` still increments the generation counter
while leaving the store, the size counter and the reference-manager log
unchanged. -/
theorem claimC10_delGenBump (cfg : Config) (st : St) (k : Key) (e : Err)
    (h : (del cfg st k).1 = .error e) :
    (del cfg st k).2 = { st with gen := st.gen + 1 } :=
  del_fail_state cfg st k e h

/-- Claim C6 witness: the generation-guard theorem applied to a concrete
one-entry collection. -/
theorem claimC6_witness :
    (({ genAtStart := 0, priorDBKey := [] } : IterState).genAtStart = stT.gen)
    ∧ ((init cfgT stT (.str ("k1".data)) { body := "B".data, slots := [] }).1 = .ok ())
    ∧ ((clear cfgT (fun _ => true) (fun _ => true) true [] ("\x7b".data) 3 stT).1 = .ok ())
    ∧ (iterStep cfgT (fun _ => true) (fun _ => true) true [] []
          { genAtStart := 0, priorDBKey := [] }
          (init cfgT stT (.str ("k1".data)) { body := "B".data, slots := [] }).2
          = .error .concurrentModification
      ∧ iterStep cfgT (fun _ => true) (fun _ => true) true [] []
          { genAtStart := 0, priorDBKey := [] } (del cfgT stT (.str ("kd".data))).2
          = .error .concurrentModification
      ∧ iterStep cfgT (fun _ => true) (fun _ => true) true [] []
          { genAtStart := 0, priorDBKey := [] }
          (clear cfgT (fun _ => true) (fun _ => true) true [] ("\x7b".data) 3 stT).2
          = .error .concurrentModification
      ∧ (set cfgT stT (.str ("k2".data)) { body := "B".data, slots := [] }).2.gen = stT.gen
      ∧ iterStep cfgT (fun _ => true) (fun _ => true) true [] []
          { genAtStart := 0, priorDBKey := [] }
          (set cfgT stT (.str ("k2".data)) { body := "B".data, slots := [] }).2
          ≠ .error .concurrentModification) :=
  ⟨rfl, rfl, rfl,
    claimC6_generationGuard cfgT stT (.str ("k1".data)) (.str ("kd".data)) (.str ("k2".data))
      { body := "B".data, slots := [] } { body := "B".data, slots := [] }
      (fun _ => true) (fun _ => true) true [] ("\x7b".data) [] [] 3
      { genAtStart := 0, priorDBKey := [] } rfl rfl rfl⟩

/-- Claim C7 witness: the schema-violation theorem applied to a collection
whose schema rejects every key. -/
theorem claimC7_witness :
    (cfgF.schema (.str ("x".data)) = false)
    ∧ (has cfgF st0.store (.str ("x".data)) = false
      ∧ get cfgF st0.store (.str ("x".data)) = .error .schemaViolation
      ∧ (init cfgF st0 (.str ("x".data)) { body := [], slots := [] }).1 = .error .schemaViolation
      ∧ (set cfgF st0 (.str ("x".data)) { body := [], slots := [] }).1 = .error .schemaViolation
      ∧ (del cfgF st0 (.str ("x".data))).1 = .error .schemaViolation) :=
  ⟨rfl, claimC7_schemaViolation cfgF st0 (.str ("x".data)) { body := [], slots := [] } rfl⟩

/-- Claim C8 witness: the size-invariant theorem applied to a concrete
one-entry collection. -/
theorem claimC8_witness :
    sizeInv cfgT stT
    ∧ (∀ dbk, initWriteKey cfgT stT.store (.str ("k1".data)) = some dbk →
        storeGet stT.store dbk = none)
    ∧ (sizeInv cfgT (init cfgT stT (.str ("k1".data)) { body := "B".data, slots := [] }).2
      ∧ sizeInv cfgT (set cfgT stT (.str ("k2".data)) { body := "B".data, slots := [] }).2
      ∧ sizeInv cfgT (del cfgT stT (.str ("kd".data))).2
      ∧ sizeInv cfgT (clear cfgT (fun _ => true) (fun _ => true) true [] ("\x7b".data) 3 stT).2) :=
  ⟨by decide,
    fun dbk h => by
      have h2 : some (("vc.1.sk1".data : Str)) = some dbk := h
      injection h2 with h3
      subst h3
      rfl,
    claimC8_sizeInvariantAmended cfgT stT (.str ("k1".data)) (.str ("kd".data)) (.str ("k2".data))
      { body := "B".data, slots := [] } { body := "B".data, slots := [] }
      (fun _ => true) (fun _ => true) true [] ("\x7b".data) 3
      (by decide)
      (fun dbk h => by
        have h2 : some (("vc.1.sk1".data : Str)) = some dbk := h
        injection h2 with h3
        subst h3
        rfl)⟩

/-- Claim C9 witness: the atomicity theorem applied to an `init` of an
already-present key. -/
theorem claimC9_witness :
    ((init cfgT stT (.str ("k2".data)) { body := [], slots := [] }).1 = .error .alreadyPresent)
    ∧ (init cfgT stT (.str ("k2".data)) { body := [], slots := [] }).2 = stT :=
  ⟨rfl, claimC9_initAtomic cfgT stT (.str ("k2".data)) { body := [], slots := [] }
      .alreadyPresent rfl⟩

/-- Claim C10 witness: the failing-delete theorem applied to a `delete` of
an absent key. -/
theorem claimC10_witness :
    ((del cfgT stT (.str ("kd".data))).1 = .error .notFound)
    ∧ (del cfgT stT (.str ("kd".data))).2 = { stT with gen := stT.gen + 1 } :=
  ⟨rfl, claimC10_delGenBump cfgT stT (.str ("kd".data)) .notFound rfl⟩

end AG
